import Mathlib

/-!
Verification of the network benchmark of the benix repository
(`src/benchmarks/network.ts`, the richer first implementation, which is the
canonical one per the design notes).

The TypeScript code is shallowly embedded: every function that the claims
depend on is translated into an executable Lean definition.  External effects
(curl, ping, JSON parsing) are modelled by passing their parsed outcomes as
explicit parameters, exactly at the point where the source reads them.
JavaScript floating point latencies and transfer speeds are modelled by `ℚ`;
JavaScript's stable `Array.prototype.sort` is modelled by the stable
`List.insertionSort` (a stable sort with a total preorder comparator has a
unique result, so any stable sort is a faithful model).
-/

/-- `SpeedtestServer` record, from the `SpeedtestServer` interface.
The unused `lat`/`lon` display fields are omitted; they never influence
control flow. -/
structure SpeedtestServer where
  id : String
  host : String
  name : String
  country : String
  sponsor : String
  url : String
  region : String
deriving Repr, DecidableEq

/-- The `COUNTRY_TO_REGION` lookup table, verbatim from the source. -/
def COUNTRY_TO_REGION : List (String × String) :=
  [("Vietnam", "Vietnam"),
   ("Singapore", "Southeast Asia"), ("Thailand", "Southeast Asia"),
   ("Indonesia", "Southeast Asia"), ("Malaysia", "Southeast Asia"),
   ("Philippines", "Southeast Asia"), ("Cambodia", "Southeast Asia"),
   ("Myanmar", "Southeast Asia"), ("Laos", "Southeast Asia"),
   ("Brunei", "Southeast Asia"),
   ("Japan", "East Asia"), ("Hong Kong", "East Asia"),
   ("South Korea", "East Asia"), ("Taiwan", "East Asia"),
   ("China", "East Asia"), ("Macau", "East Asia"), ("Mongolia", "East Asia"),
   ("India", "South Asia"), ("Pakistan", "South Asia"),
   ("Bangladesh", "South Asia"), ("Sri Lanka", "South Asia"),
   ("Nepal", "South Asia"),
   ("Australia", "Oceania"), ("New Zealand", "Oceania"), ("Fiji", "Oceania"),
   ("Papua New Guinea", "Oceania"),
   ("United Kingdom", "Europe"), ("Germany", "Europe"), ("France", "Europe"),
   ("Netherlands", "Europe"), ("Sweden", "Europe"), ("Spain", "Europe"),
   ("Italy", "Europe"), ("Poland", "Europe"), ("Belgium", "Europe"),
   ("Switzerland", "Europe"), ("Austria", "Europe"), ("Norway", "Europe"),
   ("Denmark", "Europe"), ("Finland", "Europe"), ("Ireland", "Europe"),
   ("Portugal", "Europe"), ("Czech Republic", "Europe"),
   ("Romania", "Europe"), ("Greece", "Europe"), ("Hungary", "Europe"),
   ("Ukraine", "Europe"),
   ("United States", "North America"), ("Canada", "North America"),
   ("Mexico", "North America"),
   ("Brazil", "South America"), ("Argentina", "South America"),
   ("Chile", "South America"), ("Peru", "South America"),
   ("Colombia", "South America"), ("Venezuela", "South America"),
   ("Ecuador", "South America"), ("Uruguay", "South America"),
   ("Paraguay", "South America"),
   ("South Africa", "Africa"), ("Egypt", "Africa"), ("Nigeria", "Africa"),
   ("Kenya", "Africa"), ("Morocco", "Africa"), ("Ghana", "Africa"),
   ("Tanzania", "Africa"), ("Algeria", "Africa"),
   ("United Arab Emirates", "Middle East"), ("Israel", "Middle East"),
   ("Saudi Arabia", "Middle East"), ("Turkey", "Middle East"),
   ("Qatar", "Middle East"), ("Kuwait", "Middle East"),
   ("Bahrain", "Middle East"), ("Oman", "Middle East"),
   ("Jordan", "Middle East"), ("Lebanon", "Middle East"),
   ("Russia", "Russia"), ("Kazakhstan", "Russia"), ("Belarus", "Russia")]

/-- Association lookup with decidable string equality (models JavaScript
object property access, which yields `undefined` for a missing key). -/
def alookup {β : Type} : List (String × β) → String → Option β
  | [], _ => none
  | p :: rest, g => if p.1 = g then some p.2 else alookup rest g

/-- `getRegionFromCountry`: `COUNTRY_TO_REGION[country] || 'Other'`. -/
def getRegionFromCountry (country : String) : String :=
  (alookup COUNTRY_TO_REGION country).getD ("Other")

/-- The `regionOrder` priority list from `runNetworkBenchmark`. -/
def regionOrder : List String :=
  ["Vietnam", "Southeast Asia", "East Asia", "South Asia", "Oceania",
   "Europe", "North America", "South America", "Africa", "Middle East",
   "Russia"]

/-! ### Server discovery and deduplication (`fetchSpeedtestServers`) -/

/-- The dedup loop of `fetchSpeedtestServers`: servers are scanned in merge
order, an id already in `seenIds` is dropped, a fresh one is kept and its id
recorded. -/
def dedupById : List SpeedtestServer → List String → List SpeedtestServer
  | [], _ => []
  | s :: rest, seen =>
    if s.id ∈ seen then dedupById rest seen
    else s :: dedupById rest (s.id :: seen)

/-- `fetchSpeedtestServers`, modelled on the parsed per-region responses.
Each input pair is a region search term together with the (possibly empty)
server array its directory query produced; a failed or non-array response is
the empty list.  Each server gets the originating region attached
(`{...server, region}`), then batches are merged in order and deduplicated
by id.  Batching (5 concurrent queries) preserves the overall region order
because `Promise.all` returns results in argument order, so the merged
stream is simply the concatenation in region-list order. -/
def fetchSpeedtestServers (responses : List (String × List SpeedtestServer)) :
    List SpeedtestServer :=
  dedupById
    ((responses.map (fun p => p.2.map (fun s => { s with region := p.1 }))).flatten)
    []

theorem dedupById_id_not_seen {l : List SpeedtestServer} {seen : List String}
    {s : SpeedtestServer} (hs : s ∈ dedupById l seen) : s.id ∉ seen := by
  induction l generalizing seen with
  | nil => simp [dedupById] at hs
  | cons h t ih =>
    by_cases hm : h.id ∈ seen
    · exact ih (by simpa [dedupById, hm] using hs)
    · rw [dedupById, if_neg hm] at hs
      rcases List.mem_cons.1 hs with heq | hs
      · subst heq
        exact hm
      · have := ih hs
        intro hc
        exact this (List.mem_cons_of_mem _ hc)

theorem dedupById_nodup (l : List SpeedtestServer) (seen : List String) :
    ((dedupById l seen).map (fun s => s.id)).Nodup := by
  induction l generalizing seen with
  | nil => simp [dedupById]
  | cons h t ih =>
    by_cases hm : h.id ∈ seen
    · simpa [dedupById, hm] using ih seen
    · rw [dedupById, if_neg hm]
      refine List.nodup_cons.2 ⟨?_, ih _⟩
      intro hc
      rcases List.mem_map.1 hc with ⟨s, hs, hid⟩
      exact dedupById_id_not_seen hs (by simp [hid])

theorem dedupById_first_wins {l : List SpeedtestServer} {seen : List String}
    {s : SpeedtestServer} (hs : s ∈ dedupById l seen) :
    l.find? (fun t => t.id = s.id) = some s := by
  induction l generalizing seen with
  | nil => simp [dedupById] at hs
  | cons h t ih =>
    by_cases hm : h.id ∈ seen
    · rw [dedupById, if_pos hm] at hs
      have hne : ¬ (h.id = s.id) := by
        intro he
        exact dedupById_id_not_seen hs (he ▸ hm)
      rw [List.find?_cons_of_neg _ (by simpa using hne)]
      exact ih hs
    · rw [dedupById, if_neg hm] at hs
      rcases List.mem_cons.1 hs with heq | hs
      · subst heq
        exact List.find?_cons_of_pos _ (by simp)
      · have hne : ¬ (h.id = s.id) := by
          intro he
          exact dedupById_id_not_seen hs (by simp [he])
        rw [List.find?_cons_of_neg _ (by simpa using hne)]
        exact ih hs

theorem dedupById_covers {l : List SpeedtestServer} {seen : List String}
    {s : SpeedtestServer} (hs : s ∈ l) (hns : s.id ∉ seen) :
    s.id ∈ (dedupById l seen).map (fun t => t.id) := by
  induction l generalizing seen with
  | nil => simp at hs
  | cons h t ih =>
    rcases List.mem_cons.1 hs with heq | hs
    · subst heq
      rw [dedupById, if_neg hns]
      simp
    · by_cases hm : h.id ∈ seen
      · rw [dedupById, if_pos hm]
        exact ih hs hns
      · rw [dedupById, if_neg hm]
        by_cases he : s.id = h.id
        · simp [he]
        · have := @ih (h.id :: seen) hs (by simp [he, hns])
          simpa using Or.inr this

/-! ### Public IP / provider lookup (`getPublicIp`) -/

/-- Result triple of `getPublicIp`. -/
structure PublicIpInfo where
  ip : String
  provider : String
  location : String
deriving Repr, DecidableEq

/-- Parsed body of the primary geolocation service (`ip-api.com`); `none`
models an absent JSON field. -/
structure IpApiJson where
  org : Option String
  isp : Option String
  city : Option String
  regionName : Option String
  country : Option String
deriving Repr, DecidableEq

/-- Parsed body of the fallback geolocation service (`ipinfo.io`). -/
structure IpInfoJson where
  org : Option String
  city : Option String
  region : Option String
  country : Option String
deriving Repr, DecidableEq

/-- JavaScript `a || b` on a possibly-absent string: an absent or empty
(falsy) value falls through to the default. -/
def jsOrStr (o : Option String) (d : String) : String :=
  match o with
  | some s => if s = "" then d else s
  | none => d

/-- Model of `[x, y, z].filter(Boolean).join(', ')`. -/
def joinTruthy (parts : List (Option String)) : String :=
  String.intercalate (", ")
    (parts.filterMap (fun o =>
      match o with
      | some s => if s = "" then none else some s
      | none => none))

/-- Structural model of `String.prototype.trim` (kernel-reducible, unlike
`String.trim`). -/
def jsTrim (s : String) : String :=
  String.mk (((s.data.dropWhile Char.isWhitespace).reverse.dropWhile
    Char.isWhitespace).reverse)

/-- Split a character list at every occurrence of `c` (model of splitting a
string on a separator character, keeping empty parts). -/
def splitOnChar (c : Char) : List Char → List (List Char)
  | [] => [[]]
  | x :: rest =>
    if x = c then [] :: splitOnChar c rest
    else
      match splitOnChar c rest with
      | [] => [[x]]
      | p :: ps => (x :: p) :: ps

/-- One to three decimal digits: the `\d{1,3}` piece of the IPv4 regex. -/
def isOctet (l : List Char) : Bool :=
  decide (1 ≤ l.length) && decide (l.length ≤ 3) && l.all Char.isDigit

/-- Model of the full-match test of `/^\d{1,3}\.\d{1,3}\.\d{1,3}\.\d{1,3}$/`:
exactly four dot-separated runs of one to three digits. -/
def isDottedQuad (s : String) : Bool :=
  match splitOnChar ('.') s.data with
  | [a, b, c, d] => isOctet a && isOctet b && isOctet c && isOctet d
  | _ => false

/-- `getPublicIp`, modelled on the captured stdout of the echo-service curl
(`echoRaw`) and the parsed bodies of the two geolocation lookups (`none`
models a thrown `JSON.parse`/network failure).  Mirrors the source: the ip
stays `'Unknown'` unless the trimmed echo output is a dotted quad, and the
geolocation lookups run only when the ip is not `'Unknown'`. -/
def getPublicIp (echoRaw : String) (api1 : Option IpApiJson)
    (api2 : Option IpInfoJson) : PublicIpInfo :=
  let trimmed := jsTrim echoRaw
  let ip := if isDottedQuad trimmed then trimmed else ("Unknown")
  if ip = "Unknown" then ⟨"Unknown", "Unknown", "Unknown"⟩
  else
    match api1 with
    | some j =>
        ⟨ip, jsOrStr j.org (jsOrStr j.isp ("Unknown")),
         (let loc := joinTruthy [j.city, j.regionName, j.country]
          if loc = "" then ("Unknown") else loc)⟩
    | none =>
      match api2 with
      | some j =>
          ⟨ip, jsOrStr j.org ("Unknown"),
           (let loc := joinTruthy [j.city, j.region, j.country]
            if loc = "" then ("Unknown") else loc)⟩
      | none => ⟨ip, "Unknown", "Unknown"⟩

/-! ### Latency, download and upload probes -/

/-- The HTTP connect-time fallback branch of `testLatency`: a parsed
`%{time_connect}` value (seconds) is accepted when positive and converted to
milliseconds; otherwise the probe fails with `-1`. -/
def httpFallbackLatency : Option ℚ → ℚ
  | some t => if 0 < t then t * 1000 else -1
  | none => -1

/-- `testLatency`, modelled on the extracted hostname and the parsed numeric
outputs of the two probes (`none` models `parseFloat` returning `NaN`, i.e.
empty or unparseable command output). -/
def testLatency (hostname : String) (pingMs : Option ℚ)
    (httpConnectSec : Option ℚ) : ℚ :=
  if hostname = "" then -1
  else
    match pingMs with
    | some l => if 0 < l then l else httpFallbackLatency httpConnectSec
    | none => httpFallbackLatency httpConnectSec

/-- Round half-up to an integer, the model of `Number.prototype.toFixed(0)`
on the nonnegative speeds involved. -/
def toFixed0 (q : ℚ) : String :=
  toString (q + 1 / 2).floor

/-- Two-digit zero-padded rendering of a residue in `0..99`. -/
def pad2 (k : ℤ) : String :=
  if k < 10 then "0" ++ toString k else toString k

/-- Model of `latency.toFixed(2)`. -/
def toFixed2 (q : ℚ) : String :=
  let n : ℤ := (q * 100 + 1 / 2).floor
  toString (n / 100) ++ "." ++ pad2 (n % 100)

/-- Speed formatting `(speedBps * 8 / 1000000).toFixed(0) + ' Mbps'`. -/
def mbpsFormat (speedBps : ℚ) : String :=
  toFixed0 (speedBps * 8 / 1000000) ++ " Mbps"

/-- Outcome record of `testDownload`. -/
structure DownloadOutcome where
  speed : ℚ
  mbps : String
deriving Repr, DecidableEq

/-- `testDownload`, on the parsed `%{speed_download}` output (`none` models
`NaN`).  A nonpositive or unparseable speed yields the
`{ speed: 0, mbps: 'N/A' }` failure record. -/
def testDownload (parsedSpeed : Option ℚ) : DownloadOutcome :=
  match parsedSpeed with
  | some s => if 0 < s then ⟨s, mbpsFormat s⟩ else ⟨0, "N/A"⟩
  | none => ⟨0, "N/A"⟩

/-- `testUpload`, on the parsed `%{speed_upload}` output. -/
def testUpload (parsedSpeed : Option ℚ) : String :=
  match parsedSpeed with
  | some s => if 0 < s then mbpsFormat s else ("N/A")
  | none => "N/A"

/-! ### Pre-probe candidate cap and latency partition -/

/-- A `{ server, latency }` pair as collected in `serverLatencies`. -/
structure LatencyEntry where
  server : SpeedtestServer
  latency : ℚ
deriving Repr, DecidableEq

/-- Geographic group of an entry, via its server's country. -/
def geoOf (e : LatencyEntry) : String :=
  getRegionFromCountry e.server.country

/-- Number of entries of a list that belong to a geographic group. -/
def countGroup (g : String) (l : List LatencyEntry) : Nat :=
  (l.filter (fun e => decide (geoOf e = g))).length

/-- Insert-or-overwrite on a count map: models
`regionCount[geoRegion] = (regionCount[geoRegion] || 0) + 1`. -/
def setCount (m : List (String × Nat)) (g : String) (n : Nat) :
    List (String × Nat) :=
  match m with
  | [] => [(g, n)]
  | p :: rest => if p.1 = g then (g, n) :: rest else p :: setCount rest g n

/-- The pre-probe filtering loop of `runNetworkBenchmark`: at most 3
candidates per geographic group are retained for latency testing. -/
def serversToTestAux : List SpeedtestServer → List (String × Nat) →
    List SpeedtestServer
  | [], _ => []
  | s :: rest, cnt =>
    let g := getRegionFromCountry s.country
    let n := (alookup cnt g).getD 0 + 1
    if n ≤ 3 then s :: serversToTestAux rest (setCount cnt g n)
    else serversToTestAux rest (setCount cnt g n)

/-- `serversToTest`: the bounded probe set. -/
def serversToTest (servers : List SpeedtestServer) : List SpeedtestServer :=
  serversToTestAux servers []

/-- Candidates whose latency probe succeeded, paired with their latency, in
probe order (the `serverLatencies` accumulation loop; `lat s ≤ 0` models a
probe returning `-1`). -/
def successLatencies (servers : List SpeedtestServer)
    (lat : SpeedtestServer → ℚ) : List LatencyEntry :=
  (serversToTest servers).filterMap
    (fun s => if 0 < lat s then some ⟨s, lat s⟩ else none)

/-- Candidates whose latency probe failed (the `failedServers` list). -/
def failedServers (servers : List SpeedtestServer)
    (lat : SpeedtestServer → ℚ) : List SpeedtestServer :=
  (serversToTest servers).filter (fun s => !(decide (0 < lat s)))

/-- Nondecreasing-latency comparison used by
`serverLatencies.sort((a, b) => a.latency - b.latency)`. -/
def latLE (a b : LatencyEntry) : Prop :=
  a.latency ≤ b.latency

instance : DecidableRel latLE :=
  fun a b => inferInstanceAs (Decidable (a.latency ≤ b.latency))

/-- `serverLatencies` after the ascending stable sort by latency. -/
def serverLatencies (servers : List SpeedtestServer)
    (lat : SpeedtestServer → ℚ) : List LatencyEntry :=
  List.insertionSort latLE (successLatencies servers lat)

/-- `regionGroups[g]`: the sorted entries of one geographic group, in sorted
order (the grouping loop appends in iteration order, hence a filter). -/
def regionGroups (servers : List SpeedtestServer) (lat : SpeedtestServer → ℚ)
    (g : String) : List LatencyEntry :=
  (serverLatencies servers lat).filter (fun e => decide (geoOf e = g))

/-- `availableRegions`: priority-order groups with at least one
successfully probed candidate. -/
def availableRegions (servers : List SpeedtestServer)
    (lat : SpeedtestServer → ℚ) : List String :=
  regionOrder.filter (fun g => !(regionGroups servers lat g).isEmpty)

/-- `maxPerRegion = Math.min(4, Math.ceil(maxServers / availableRegions.length) + 1)`.
When `availableRegions` is empty JavaScript computes
`Math.min(4, Infinity) = 4` (for `maxServers ≥ 1`), modelled by the zero
branch. -/
def maxPerRegion (servers : List SpeedtestServer) (lat : SpeedtestServer → ℚ)
    (m : Nat) : Nat :=
  let a := (availableRegions servers lat).length
  if a = 0 then 4 else min 4 ((m + a - 1) / a + 1)

/-! ### Diverse selection: state and the four passes -/

/-- Selection state: the `selectedServers` list, the `selectedIds` set
(kept as the id list in push order, which is all that membership needs) and
the `regionServerCount` map.  The `seenCountries` set of the source is
written to but never read in this implementation, so it carries no
behaviour and is omitted. -/
structure SelState where
  selected : List LatencyEntry
  ids : List String
  counts : List (String × Nat)
deriving Repr

/-- `regionServerCount` after its initialization loop: every priority
region maps to `0`; no other key exists. -/
def initCounts : List (String × Nat) :=
  regionOrder.map (fun g => (g, 0))

def initState : SelState :=
  ⟨[], [], initCounts⟩

/-- Increment an existing key, leaving missing keys missing (all increments
in the source happen on keys already initialized or guarded by a lookup). -/
def bump : List (String × Nat) → String → List (String × Nat)
  | [], _ => []
  | p :: rest, g => if p.1 = g then (p.1, p.2 + 1) :: rest else p :: bump rest g

/-- The push idiom `selectedServers.push(entry); selectedIds.add(id);
regionServerCount[region]++`. -/
def push (st : SelState) (e : LatencyEntry) (g : String) : SelState :=
  ⟨st.selected ++ [e], st.ids ++ [e.server.id], bump st.counts g⟩

/-- The final pass pushes without touching `regionServerCount`. -/
def pushNoCount (st : SelState) (e : LatencyEntry) : SelState :=
  ⟨st.selected ++ [e], st.ids ++ [e.server.id], st.counts⟩

/-- JavaScript `regionServerCount[g] >= n`: `undefined >= n` is `false`. -/
def jsGe (cnt : List (String × Nat)) (g : String) (n : Nat) : Bool :=
  match alookup cnt g with
  | some k => decide (n ≤ k)
  | none => false

/-- First-pass inner loop over a region's successful entries: add entries
until the region count reaches 1 (so exactly the first entry, if any). -/
def pass1Succ (g : String) : List LatencyEntry → SelState → SelState
  | [], st => st
  | e :: rest, st =>
    if jsGe st.counts g 1 then st
    else pass1Succ g rest (push st e g)

/-- First-pass fallback loop over `failedServers`: add the first failed
candidate of this region not yet selected, with the `999` placeholder
latency. -/
def pass1Failed (g : String) : List SpeedtestServer → SelState → SelState
  | [], st => st
  | s :: rest, st =>
    if jsGe st.counts g 1 then st
    else if getRegionFromCountry s.country = g ∧ s.id ∉ st.ids then
      pass1Failed g rest (push st ⟨s, 999⟩ g)
    else pass1Failed g rest st

/-- One region of the coverage pass: the successful-entry loop, then the
failed-candidate fallback when the region count is still `0`. -/
def pass1Step (fl : List SpeedtestServer) (RG : String → List LatencyEntry)
    (st : SelState) (g : String) : SelState :=
  let st1 := pass1Succ g (RG g) st
  if alookup st1.counts g = some 0 then pass1Failed g fl st1 else st1

/-- The coverage pass: one sweep of `regionOrder`. -/
def pass1 (fl : List SpeedtestServer) (RG : String → List LatencyEntry)
    (st : SelState) : SelState :=
  regionOrder.foldl (pass1Step fl RG) st

/-- One round-robin sweep of the second pass.  Per region: stop the sweep
once `maxServers` is reached, skip a region at its cap, otherwise add the
first not-yet-selected entry of the region (the inner `break` after a push
moves to the next region).  The boolean records `addedInPass`. -/
def sweep (RG : String → List LatencyEntry) (m maxPer : Nat) :
    List String → SelState → SelState × Bool
  | [], st => (st, false)
  | g :: rest, st =>
    if m ≤ st.selected.length then (st, false)
    else if jsGe st.counts g maxPer then sweep RG m maxPer rest st
    else
      match (RG g).find? (fun e => !(decide (e.server.id ∈ st.ids))) with
      | some e => ((sweep RG m maxPer rest (push st e g)).1, true)
      | none => sweep RG m maxPer rest st

/-- The round-robin `while (addedInPass && selectedServers.length <
maxServers)` loop.  The fuel only bounds the iteration count: each
productive sweep grows `selected` by at least one and the loop re-enters
only while `selected.length < maxServers`, so `maxServers + 1` sweeps can
never be cut short and the fueled function coincides with the source's
unbounded loop. -/
def pass2 (RG : String → List LatencyEntry) (m maxPer : Nat) :
    Nat → SelState → SelState
  | 0, st => st
  | fuel + 1, st =>
    if st.selected.length < m then
      let sw := sweep RG m maxPer regionOrder st
      if sw.2 then pass2 RG m maxPer fuel sw.1 else sw.1
    else st

/-- Third pass: walk the latency-sorted entries, adding unselected ones
whose region is still under `maxPerRegion`.  An entry whose group is not a
key of `regionServerCount` (the `'Other'` group) fails the JavaScript
comparison `undefined < maxPerRegion` and is skipped. -/
def pass3 (m maxPer : Nat) : List LatencyEntry → SelState → SelState
  | [], st => st
  | e :: rest, st =>
    if m ≤ st.selected.length then st
    else if decide (e.server.id ∈ st.ids) then pass3 m maxPer rest st
    else
      match alookup st.counts (geoOf e) with
      | some n =>
        if n < maxPer then pass3 m maxPer rest (push st e (geoOf e))
        else pass3 m maxPer rest st
      | none => pass3 m maxPer rest st

/-- Final unconstrained backfill pass. -/
def pass4 (m : Nat) : List LatencyEntry → SelState → SelState
  | [], st => st
  | e :: rest, st =>
    if m ≤ st.selected.length then st
    else if decide (e.server.id ∈ st.ids) then pass4 m rest st
    else pass4 m rest (pushNoCount st e)

/-! ### Stage composition for one benchmark run -/

def stage1 (servers : List SpeedtestServer) (lat : SpeedtestServer → ℚ) :
    SelState :=
  pass1 (failedServers servers lat) (regionGroups servers lat) initState

def stage2 (servers : List SpeedtestServer) (lat : SpeedtestServer → ℚ)
    (m : Nat) : SelState :=
  pass2 (regionGroups servers lat) m (maxPerRegion servers lat m) (m + 1)
    (stage1 servers lat)

def stage3 (servers : List SpeedtestServer) (lat : SpeedtestServer → ℚ)
    (m : Nat) : SelState :=
  pass3 m (maxPerRegion servers lat m) (serverLatencies servers lat)
    (stage2 servers lat m)

def stage4 (servers : List SpeedtestServer) (lat : SpeedtestServer → ℚ)
    (m : Nat) : SelState :=
  pass4 m (serverLatencies servers lat) (stage3 servers lat m)

/-- `finalServers = selectedServers.slice(0, maxServers)`. -/
def finalServers (servers : List SpeedtestServer) (lat : SpeedtestServer → ℚ)
    (m : Nat) : List LatencyEntry :=
  (stage4 servers lat m).selected.take m

/-- The servers appended by the final unconstrained backfill pass. -/
def pass4Additions (servers : List SpeedtestServer)
    (lat : SpeedtestServer → ℚ) (m : Nat) : List LatencyEntry :=
  (stage4 servers lat m).selected.drop (stage3 servers lat m).selected.length

/-! ### Presentation order -/

/-- `regionOrder.indexOf(g)`: the priority index, `-1` for a group not in
the list (the `'Other'` group). -/
def regIdx (g : String) : ℤ :=
  match regionOrder.indexOf? g with
  | some i => (i : ℤ)
  | none => -1

/-- The display comparator of the final sort: ascending priority index,
then country name, then latency.  `a ≤ b` holds iff the source comparator
returns a nonpositive number on `(a, b)`. -/
def dispLE (a b : LatencyEntry) : Prop :=
  regIdx (geoOf a) < regIdx (geoOf b) ∨
    (regIdx (geoOf a) = regIdx (geoOf b) ∧
      (a.server.country < b.server.country ∨
        (a.server.country = b.server.country ∧ a.latency ≤ b.latency)))

instance : DecidableRel dispLE := by
  intro a b
  unfold dispLE
  infer_instance

/-- `sortedServers = [...finalServers].sort(displayComparator)`. -/
def sortedServers (servers : List SpeedtestServer)
    (lat : SpeedtestServer → ℚ) (m : Nat) : List LatencyEntry :=
  List.insertionSort dispLE (finalServers servers lat m)

/-! ### Bandwidth measurement loop and the aggregate result -/

/-- One terminal `SpeedTestResult` record. -/
structure SpeedTestResult where
  server : String
  location : String
  download : String
  upload : String
  latency : String
deriving Repr, DecidableEq

/-- Construction of the `testResult` record pushed for one server. -/
def mkSpeedTestResult (e : LatencyEntry) (download : DownloadOutcome)
    (upload : String) : SpeedTestResult :=
  ⟨(if e.server.sponsor = "" then e.server.name else e.server.sponsor),
   e.server.name ++ ", " ++ e.server.country,
   download.mbps, upload, toFixed2 e.latency ++ " ms"⟩

/-- The sequential download/upload loop over `sortedServers`: a server whose
download outcome has `speed = 0` is skipped entirely (`continue`), otherwise
its upload is measured and a result is appended. -/
def buildTests (dl ul : SpeedtestServer → Option ℚ) :
    List LatencyEntry → List SpeedTestResult
  | [] => []
  | e :: rest =>
    let download := testDownload (dl e.server)
    if download.speed = 0 then buildTests dl ul rest
    else mkSpeedTestResult e download (testUpload (ul e.server)) ::
      buildTests dl ul rest

/-- The aggregate `NetworkResult`. -/
structure NetworkResult where
  publicIp : String
  provider : String
  location : String
  tests : List SpeedTestResult
deriving Repr, DecidableEq

/-- `runNetworkBenchmark`, modelled on the public-ip lookup outcome, the
parsed per-region discovery responses, and per-server probe outcome oracles
(`lat` for `testLatency`, `dl`/`ul` for the parsed transfer speeds; the
default `maxServers` in the source is 20).  The second component collects
warnings: total discovery failure emits exactly one warning and returns the
result with the ip fields already populated and `tests` empty. -/
def runNetworkBenchmark (ipInfo : PublicIpInfo)
    (responses : List (String × List SpeedtestServer))
    (lat : SpeedtestServer → ℚ) (dl ul : SpeedtestServer → Option ℚ)
    (maxServers : Nat) : NetworkResult × List String :=
  let servers := fetchSpeedtestServers responses
  if servers.isEmpty then
    (⟨ipInfo.ip, ipInfo.provider, ipInfo.location, []⟩,
     ["Could not fetch servers from Speedtest.net API"])
  else
    (⟨ipInfo.ip, ipInfo.provider, ipInfo.location,
      buildTests dl ul (sortedServers servers lat maxServers)⟩, [])

/-! ### Groups with a discovered candidate (the spec's `availableGroups`) -/

/-- A geographic group has at least one discovered candidate. -/
def hasCandidate (servers : List SpeedtestServer) (g : String) : Bool :=
  servers.any (fun s => decide (getRegionFromCountry s.country = g))

/-- Number of geographic groups (the eleven priority groups and `'Other'`)
with at least one discovered candidate — the spec's `availableGroups`. -/
def availableGroupsClaim (servers : List SpeedtestServer) : Nat :=
  ((regionOrder ++ ["Other"]).filter (hasCandidate servers)).length

/-- The spec's cap `min(4, ceil(maxServers / availableGroups) + 1)`. -/
def capClaim (servers : List SpeedtestServer) (m : Nat) : Nat :=
  min 4 ((m + availableGroupsClaim servers - 1) / availableGroupsClaim servers + 1)

/-! ### Association map and counting lemmas -/

theorem alookup_eq_none {β : Type} {m : List (String × β)} {g : String}
    (h : g ∉ m.map Prod.fst) : alookup m g = none := by
  induction m with
  | nil => rfl
  | cons p rest ih =>
    have h1 : ¬ (p.1 = g) := by
      intro he
      exact h (by simp [he])
    rw [alookup, if_neg h1]
    exact ih (fun hc => h (List.mem_cons_of_mem _ hc))

theorem alookup_isSome_mem {β : Type} {m : List (String × β)} {g : String}
    {v : β} (h : alookup m g = some v) : g ∈ m.map Prod.fst := by
  by_contra hc
  rw [alookup_eq_none hc] at h
  exact Option.noConfusion h

theorem alookup_mem_pair {β : Type} {m : List (String × β)} {g : String}
    {v : β} (h : alookup m g = some v) : (g, v) ∈ m := by
  induction m with
  | nil => exact Option.noConfusion h
  | cons p rest ih =>
    by_cases h1 : p.1 = g
    · rw [alookup, if_pos h1] at h
      have hpv : (g, v) = p := by
        cases p
        simp_all
      rw [hpv]
      exact List.mem_cons_self _ _
    · rw [alookup, if_neg h1] at h
      exact List.mem_cons_of_mem _ (ih h)

theorem alookup_bump_self (m : List (String × Nat)) (g : String) :
    alookup (bump m g) g = (alookup m g).map (fun n => n + 1) := by
  induction m with
  | nil => rfl
  | cons p rest ih =>
    by_cases h1 : p.1 = g
    · simp [bump, alookup, h1]
    · simp only [bump, if_neg h1, alookup]
      exact ih

theorem alookup_bump_ne (m : List (String × Nat)) {g g' : String}
    (h : g' ≠ g) : alookup (bump m g) g' = alookup m g' := by
  induction m with
  | nil => rfl
  | cons p rest ih =>
    by_cases h1 : p.1 = g
    · have h2 : ¬ (p.1 = g') := by
        intro he
        exact h (he ▸ h1)
      simp only [bump, if_pos h1, alookup]
      rw [if_neg h2, if_neg h2]
    · by_cases h2 : p.1 = g'
      · simp only [bump, if_neg h1, alookup]
        rw [if_pos h2, if_pos h2]
      · simp only [bump, if_neg h1, alookup]
        rw [if_neg h2, if_neg h2]
        exact ih

theorem bump_keys (m : List (String × Nat)) (g : String) :
    (bump m g).map Prod.fst = m.map Prod.fst := by
  induction m with
  | nil => rfl
  | cons p rest ih =>
    by_cases h1 : p.1 = g
    · simp [bump, h1]
    · simp only [bump, if_neg h1, List.map_cons, ih]

theorem alookup_map_zero (l : List String) (g : String) :
    alookup (l.map (fun x => (x, 0))) g =
      if g ∈ l then some 0 else none := by
  induction l with
  | nil => rfl
  | cons x rest ih =>
    by_cases h1 : x = g
    · simp [alookup, h1]
    · rw [List.map_cons, alookup, if_neg h1, ih]
      by_cases hg : g ∈ rest
      · rw [if_pos hg, if_pos (List.mem_cons_of_mem _ hg)]
      · rw [if_neg hg, if_neg ?_]
        intro hc
        rcases List.mem_cons.1 hc with he | he
        · exact h1 he.symm
        · exact hg he

theorem alookup_initCounts (g : String) :
    alookup initCounts g = if g ∈ regionOrder then some 0 else none :=
  alookup_map_zero regionOrder g

theorem countGroup_append (g : String) (l1 l2 : List LatencyEntry) :
    countGroup g (l1 ++ l2) = countGroup g l1 + countGroup g l2 := by
  simp [countGroup, List.filter_append]

theorem countGroup_singleton (g : String) (e : LatencyEntry) :
    countGroup g [e] = if geoOf e = g then 1 else 0 := by
  by_cases h : geoOf e = g
  · simp [countGroup, h]
  · simp [countGroup, h]

theorem countGroup_le_length (g : String) (l : List LatencyEntry) :
    countGroup g l ≤ l.length :=
  List.length_filter_le _ l

theorem countGroup_eq_zero {g : String} {l : List LatencyEntry}
    (h : ∀ e ∈ l, geoOf e ≠ g) : countGroup g l = 0 := by
  simp only [countGroup, List.length_eq_zero]
  exact List.filter_eq_nil_iff.2 (fun e he => by simpa using h e he)

theorem exists_of_countGroup_pos {g : String} {l : List LatencyEntry}
    (h : 0 < countGroup g l) : ∃ e ∈ l, geoOf e = g := by
  rcases List.exists_mem_of_length_pos h with ⟨e, he⟩
  have := List.mem_filter.1 he
  exact ⟨e, this.1, by simpa using this.2⟩

/-! ### Facts about the static tables -/

theorem regionOrder_nodup : regionOrder.Nodup := by decide

theorem other_not_mem_regionOrder : ("Other") ∉ regionOrder := by decide

/-- Every geographic group is a priority group or `'Other'`. -/
theorem geo_mem_or_other (c : String) :
    getRegionFromCountry c ∈ regionOrder ∨ getRegionFromCountry c = "Other" := by
  unfold getRegionFromCountry
  cases hl : alookup COUNTRY_TO_REGION c with
  | none => simp
  | some v =>
    left
    have hp := alookup_mem_pair hl
    have hv : v ∈ COUNTRY_TO_REGION.map Prod.snd :=
      List.mem_map.2 ⟨(c, v), hp, rfl⟩
    have hall : ∀ w ∈ COUNTRY_TO_REGION.map Prod.snd, w ∈ regionOrder := by
      decide
    simpa using hall v hv

/-! ### Properties of the pre-probe cap `serversToTest` -/

/-- Per-group count over raw server lists. -/
def countGroupServers (g : String) (l : List SpeedtestServer) : Nat :=
  (l.filter (fun s => decide (getRegionFromCountry s.country = g))).length

theorem countGroupServers_cons (g : String) (s : SpeedtestServer)
    (l : List SpeedtestServer) :
    countGroupServers g (s :: l) =
      (if getRegionFromCountry s.country = g then 1 else 0) +
        countGroupServers g l := by
  by_cases h : getRegionFromCountry s.country = g
  · simp [countGroupServers, h, Nat.add_comm]
  · simp [countGroupServers, h]

theorem alookup_setCount_self (m : List (String × Nat)) (g : String) (n : Nat) :
    alookup (setCount m g n) g = some n := by
  induction m with
  | nil => simp [setCount, alookup]
  | cons p rest ih =>
    by_cases h1 : p.1 = g
    · simp [setCount, alookup, h1]
    · simp only [setCount, if_neg h1, alookup]
      exact ih

theorem alookup_setCount_ne (m : List (String × Nat)) {g g' : String}
    (n : Nat) (h : g' ≠ g) : alookup (setCount m g n) g' = alookup m g' := by
  induction m with
  | nil =>
    simp only [setCount, alookup]
    rw [if_neg (fun he => h he.symm)]
  | cons p rest ih =>
    by_cases h1 : p.1 = g
    · simp only [setCount, if_pos h1, alookup]
      have h2 : ¬ (g = g') := fun he => h he.symm
      rw [if_neg h2, if_neg (h1 ▸ (fun he => h2 (he.symm ▸ rfl)) : ¬ (p.1 = g'))]
    · simp only [setCount, if_neg h1, alookup]
      by_cases h2 : p.1 = g'
      · rw [if_pos h2, if_pos h2]
      · rw [if_neg h2, if_neg h2]
        exact ih

theorem serversToTestAux_sublist (l : List SpeedtestServer)
    (cnt : List (String × Nat)) : (serversToTestAux l cnt).Sublist l := by
  induction l generalizing cnt with
  | nil => simp [serversToTestAux]
  | cons s rest ih =>
    rw [serversToTestAux]
    by_cases h : (alookup cnt (getRegionFromCountry s.country)).getD 0 + 1 ≤ 3
    · simp only [if_pos h]
      exact List.Sublist.cons₂ _ (ih _)
    · simp only [if_neg h]
      exact List.Sublist.cons _ (ih _)

theorem serversToTest_sublist (servers : List SpeedtestServer) :
    (serversToTest servers).Sublist servers :=
  serversToTestAux_sublist servers []

theorem serversToTestAux_countGroup (g : String) (l : List SpeedtestServer)
    (cnt : List (String × Nat)) :
    countGroupServers g (serversToTestAux l cnt) ≤
      3 - (alookup cnt g).getD 0 := by
  induction l generalizing cnt with
  | nil => simp [serversToTestAux, countGroupServers]
  | cons s rest ih =>
    rw [serversToTestAux]
    by_cases hg : getRegionFromCountry s.country = g
    · rw [hg]
      have hset : (alookup (setCount cnt g ((alookup cnt g).getD 0 + 1)) g).getD 0
          = (alookup cnt g).getD 0 + 1 := by
        rw [alookup_setCount_self]
        rfl
      by_cases h : (alookup cnt g).getD 0 + 1 ≤ 3
      · rw [if_pos h, countGroupServers_cons, hg, if_pos rfl]
        have := ih (setCount cnt g ((alookup cnt g).getD 0 + 1))
        rw [hset] at this
        omega
      · rw [if_neg h]
        have := ih (setCount cnt g ((alookup cnt g).getD 0 + 1))
        rw [hset] at this
        omega
    · have hset : alookup (setCount cnt (getRegionFromCountry s.country)
          ((alookup cnt (getRegionFromCountry s.country)).getD 0 + 1)) g
          = alookup cnt g :=
        alookup_setCount_ne cnt _ (fun he => hg he.symm)
      by_cases h : (alookup cnt (getRegionFromCountry s.country)).getD 0 + 1 ≤ 3
      · rw [if_pos h, countGroupServers_cons, if_neg hg]
        have := ih (setCount cnt (getRegionFromCountry s.country)
          ((alookup cnt (getRegionFromCountry s.country)).getD 0 + 1))
        rw [hset] at this
        omega
      · rw [if_neg h]
        have := ih (setCount cnt (getRegionFromCountry s.country)
          ((alookup cnt (getRegionFromCountry s.country)).getD 0 + 1))
        rw [hset] at this
        omega

theorem serversToTest_countGroup (g : String) (servers : List SpeedtestServer) :
    countGroupServers g (serversToTest servers) ≤ 3 := by
  have := serversToTestAux_countGroup g servers []
  simpa [alookup] using this

theorem serversToTestAux_presence {g : String} {l : List SpeedtestServer}
    {cnt : List (String × Nat)}
    (hk : (alookup cnt g).getD 0 ≤ 2)
    (h : ∃ s ∈ l, getRegionFromCountry s.country = g) :
    ∃ s ∈ serversToTestAux l cnt, getRegionFromCountry s.country = g := by
  induction l generalizing cnt with
  | nil => simp at h
  | cons s rest ih =>
    rw [serversToTestAux]
    by_cases hg : getRegionFromCountry s.country = g
    · have h3 : (alookup cnt (getRegionFromCountry s.country)).getD 0 + 1 ≤ 3 := by
        rw [hg]
        omega
      rw [if_pos h3]
      exact ⟨s, List.mem_cons_self _ _, hg⟩
    · rcases h with ⟨t, ht, hgt⟩
      rcases List.mem_cons.1 ht with he | ht
      · exact absurd (he ▸ hgt) hg
      · have hk2 : (alookup (setCount cnt (getRegionFromCountry s.country)
            ((alookup cnt (getRegionFromCountry s.country)).getD 0 + 1)) g).getD 0 ≤ 2 := by
          rw [alookup_setCount_ne cnt _ (fun he => hg he.symm)]
          exact hk
        by_cases h3 : (alookup cnt (getRegionFromCountry s.country)).getD 0 + 1 ≤ 3
        · rw [if_pos h3]
          rcases ih hk2 ⟨t, ht, hgt⟩ with ⟨u, hu, hgu⟩
          exact ⟨u, List.mem_cons_of_mem _ hu, hgu⟩
        · rw [if_neg h3]
          exact ih hk2 ⟨t, ht, hgt⟩

theorem serversToTest_presence {g : String} {servers : List SpeedtestServer}
    (h : ∃ s ∈ servers, getRegionFromCountry s.country = g) :
    ∃ s ∈ serversToTest servers, getRegionFromCountry s.country = g :=
  serversToTestAux_presence (by simp [alookup]) h

/-! ### The success / failed partition and the latency sort -/

theorem successLatencies_mem {servers : List SpeedtestServer}
    {lat : SpeedtestServer → ℚ} {e : LatencyEntry} :
    e ∈ successLatencies servers lat ↔
      e.server ∈ serversToTest servers ∧ 0 < lat e.server ∧
        e.latency = lat e.server := by
  unfold successLatencies
  rw [List.mem_filterMap]
  constructor
  · rintro ⟨s, hs, hf⟩
    by_cases hp : 0 < lat s
    · rw [if_pos hp] at hf
      have he := Option.some.inj hf
      subst he
      exact ⟨hs, hp, rfl⟩
    · rw [if_neg hp] at hf
      exact Option.noConfusion hf
  · rintro ⟨hs, hp, hl⟩
    refine ⟨e.server, hs, ?_⟩
    rw [if_pos hp]
    cases e
    simp_all

theorem successLatencies_map_server_sublist (servers : List SpeedtestServer)
    (lat : SpeedtestServer → ℚ) :
    ((successLatencies servers lat).map (fun e => e.server)).Sublist
      (serversToTest servers) := by
  unfold successLatencies
  generalize serversToTest servers = l
  induction l with
  | nil => simp
  | cons s rest ih =>
    rw [List.filterMap_cons]
    by_cases hp : 0 < lat s
    · rw [if_pos hp]
      exact List.Sublist.cons₂ _ ih
    · rw [if_neg hp]
      exact List.Sublist.cons _ ih

theorem failedServers_mem {servers : List SpeedtestServer}
    {lat : SpeedtestServer → ℚ} {s : SpeedtestServer} :
    s ∈ failedServers servers lat ↔
      s ∈ serversToTest servers ∧ ¬ 0 < lat s := by
  unfold failedServers
  rw [List.mem_filter]
  simp

theorem serverLatencies_perm (servers : List SpeedtestServer)
    (lat : SpeedtestServer → ℚ) :
    (serverLatencies servers lat).Perm (successLatencies servers lat) :=
  List.perm_insertionSort _ _

theorem serverLatencies_mem {servers : List SpeedtestServer}
    {lat : SpeedtestServer → ℚ} {e : LatencyEntry} :
    e ∈ serverLatencies servers lat ↔
      e.server ∈ serversToTest servers ∧ 0 < lat e.server ∧
        e.latency = lat e.server := by
  rw [(serverLatencies_perm servers lat).mem_iff]
  exact successLatencies_mem

theorem regionGroups_mem {servers : List SpeedtestServer}
    {lat : SpeedtestServer → ℚ} {g : String} {e : LatencyEntry} :
    e ∈ regionGroups servers lat g ↔
      e ∈ serverLatencies servers lat ∧ geoOf e = g := by
  unfold regionGroups
  rw [List.mem_filter]
  simp

/-! ### Id uniqueness along the pipeline -/

theorem serversToTest_nodup_ids {servers : List SpeedtestServer}
    (hids : (servers.map (fun s => s.id)).Nodup) :
    ((serversToTest servers).map (fun s => s.id)).Nodup :=
  ((serversToTest_sublist servers).map _).nodup hids

theorem serversToTest_id_inj {servers : List SpeedtestServer}
    (hids : (servers.map (fun s => s.id)).Nodup) {a b : SpeedtestServer}
    (ha : a ∈ serversToTest servers) (hb : b ∈ serversToTest servers)
    (he : a.id = b.id) : a = b :=
  List.inj_on_of_nodup_map (serversToTest_nodup_ids hids) ha hb he

theorem successLatencies_nodup_ids {servers : List SpeedtestServer}
    {lat : SpeedtestServer → ℚ}
    (hids : (servers.map (fun s => s.id)).Nodup) :
    ((successLatencies servers lat).map (fun e => e.server.id)).Nodup := by
  have h1 : (successLatencies servers lat).map (fun e => e.server.id) =
      ((successLatencies servers lat).map (fun e => e.server)).map
        (fun s => s.id) := by
    rw [List.map_map]
    rfl
  rw [h1]
  exact ((successLatencies_map_server_sublist servers lat).map _).nodup
    (serversToTest_nodup_ids hids)

theorem serverLatencies_nodup_ids {servers : List SpeedtestServer}
    {lat : SpeedtestServer → ℚ}
    (hids : (servers.map (fun s => s.id)).Nodup) :
    ((serverLatencies servers lat).map (fun e => e.server.id)).Nodup :=
  (((serverLatencies_perm servers lat).map _).nodup_iff).2
    (successLatencies_nodup_ids hids)

/-! ### Per-group size of the region groups -/

theorem countGroup_eq_countP (g : String) (l : List LatencyEntry) :
    countGroup g l = l.countP (fun e => decide (geoOf e = g)) :=
  (List.countP_eq_length_filter _ l).symm

theorem regionGroups_length (servers : List SpeedtestServer)
    (lat : SpeedtestServer → ℚ) (g : String) :
    (regionGroups servers lat g).length = countGroup g (serverLatencies servers lat) :=
  rfl

theorem regionGroups_length_le_three (servers : List SpeedtestServer)
    (lat : SpeedtestServer → ℚ) (g : String) :
    (regionGroups servers lat g).length ≤ 3 := by
  rw [regionGroups_length, countGroup_eq_countP,
    (serverLatencies_perm servers lat).countP_eq, List.countP_eq_length_filter]
  have h1 : ((successLatencies servers lat).filter
      (fun e => decide (geoOf e = g))).map (fun e => e.server) =
      ((successLatencies servers lat).map (fun e => e.server)).filter
        (fun s => decide (getRegionFromCountry s.country = g)) := by
    rw [List.filter_map]
    rfl
  have h2 : (((successLatencies servers lat).map (fun e => e.server)).filter
      (fun s => decide (getRegionFromCountry s.country = g))).Sublist
      ((serversToTest servers).filter
        (fun s => decide (getRegionFromCountry s.country = g))) :=
    (successLatencies_map_server_sublist servers lat).filter _
  have h3 := h2.length_le
  rw [← h1] at h3
  rw [List.length_map] at h3
  exact le_trans h3 (serversToTest_countGroup g servers)

/-! ### Groups with candidates: transfer across the pre-probe cap -/

theorem hasCandidate_iff {l : List SpeedtestServer} {g : String} :
    hasCandidate l g = true ↔ ∃ s ∈ l, getRegionFromCountry s.country = g := by
  unfold hasCandidate
  rw [List.any_eq_true]
  simp

theorem hasCandidate_serversToTest (servers : List SpeedtestServer)
    (g : String) :
    hasCandidate (serversToTest servers) g = hasCandidate servers g := by
  cases h2 : hasCandidate servers g with
  | true =>
    exact hasCandidate_iff.2 (serversToTest_presence (hasCandidate_iff.1 h2))
  | false =>
    by_contra hc
    have h1 : hasCandidate (serversToTest servers) g = true := by
      cases h : hasCandidate (serversToTest servers) g with
      | true => rfl
      | false => exact absurd h hc
    rcases hasCandidate_iff.1 h1 with ⟨s, hs, hg⟩
    have : hasCandidate servers g = true :=
      hasCandidate_iff.2 ⟨s, (serversToTest_sublist servers).mem hs, hg⟩
    rw [h2] at this
    exact Bool.noConfusion this

/-- The priority-order groups holding at least one discovered candidate:
pass one adds exactly one server for each of these. -/
def coveredRegions (servers : List SpeedtestServer) : List String :=
  regionOrder.filter (hasCandidate servers)

theorem availableGroupsClaim_split (servers : List SpeedtestServer) :
    availableGroupsClaim servers = (coveredRegions servers).length +
      (if hasCandidate servers ("Other") = true then 1 else 0) := by
  unfold availableGroupsClaim coveredRegions
  rw [List.filter_append, List.length_append]
  by_cases h : hasCandidate servers ("Other") = true
  · simp [h]
  · simp [h]

theorem coveredRegions_le_availableGroups (servers : List SpeedtestServer) :
    (coveredRegions servers).length ≤ availableGroupsClaim servers := by
  rw [availableGroupsClaim_split]
  omega

theorem availableGroups_le_coveredRegions_succ (servers : List SpeedtestServer) :
    availableGroupsClaim servers ≤ (coveredRegions servers).length + 1 := by
  rw [availableGroupsClaim_split]
  by_cases h : hasCandidate servers ("Other") = true
  · simp [h]
  · simp [h]

/-! ### The selection invariant -/

/-- Invariant carried by the selection state through the first three passes:
the id set mirrors the selected list, ids are pairwise distinct, the count
map has exactly the priority regions as keys and counts each region's
selected servers, and every selected entry is a capped candidate whose group
is a priority group and which either passed the latency probe or stands in
for a group that has no successfully probed candidate at all. -/
structure SelInv (servers : List SpeedtestServer) (lat : SpeedtestServer → ℚ)
    (st : SelState) : Prop where
  ids_eq : st.ids = st.selected.map (fun e => e.server.id)
  nodup : st.ids.Nodup
  keys : st.counts.map Prod.fst = regionOrder
  counts_eq : ∀ g ∈ regionOrder, alookup st.counts g = some (countGroup g st.selected)
  mem_s2t : ∀ e ∈ st.selected, e.server ∈ serversToTest servers
  grp_mem : ∀ e ∈ st.selected, geoOf e ∈ regionOrder
  src : ∀ e ∈ st.selected, e ∈ serverLatencies servers lat ∨
    regionGroups servers lat (geoOf e) = []

theorem selInv_init (servers : List SpeedtestServer)
    (lat : SpeedtestServer → ℚ) : SelInv servers lat initState := by
  refine ⟨rfl, List.nodup_nil, ?_, ?_, ?_, ?_, ?_⟩
  · show (regionOrder.map (fun g => (g, 0))).map Prod.fst = regionOrder
    rw [List.map_map]
    exact List.map_id'' (fun _ => rfl) _
  · intro g hg
    rw [initState]
    rw [alookup_initCounts, if_pos hg]
    rfl
  · intro e he
    exact absurd he (List.not_mem_nil e)
  · intro e he
    exact absurd he (List.not_mem_nil e)
  · intro e he
    exact absurd he (List.not_mem_nil e)

theorem selInv_push {servers : List SpeedtestServer}
    {lat : SpeedtestServer → ℚ} {st : SelState} (inv : SelInv servers lat st)
    {e : LatencyEntry} (hid : e.server.id ∉ st.ids)
    (hs2t : e.server ∈ serversToTest servers)
    (hgrp : geoOf e ∈ regionOrder)
    (hsrc : e ∈ serverLatencies servers lat ∨
      regionGroups servers lat (geoOf e) = []) :
    SelInv servers lat (push st e (geoOf e)) := by
  refine ⟨?_, ?_, ?_, ?_, ?_, ?_, ?_⟩
  · show st.ids ++ [e.server.id] = (st.selected ++ [e]).map (fun x => x.server.id)
    rw [List.map_append, inv.ids_eq]
    rfl
  · show (st.ids ++ [e.server.id]).Nodup
    rw [List.nodup_append]
    exact ⟨inv.nodup, List.nodup_singleton _, by simpa using hid⟩
  · show (bump st.counts (geoOf e)).map Prod.fst = regionOrder
    rw [bump_keys]
    exact inv.keys
  · intro g hg
    show alookup (bump st.counts (geoOf e)) g =
      some (countGroup g (st.selected ++ [e]))
    rw [countGroup_append, countGroup_singleton]
    by_cases hge : geoOf e = g
    · subst hge
      rw [alookup_bump_self, inv.counts_eq _ hg]
      simp
    · rw [alookup_bump_ne _ (fun he => hge he.symm), inv.counts_eq _ hg,
        if_neg hge]
      simp
  · intro x hx
    rcases List.mem_append.1 hx with hx | hx
    · exact inv.mem_s2t x hx
    · rw [List.mem_singleton.1 hx]
      exact hs2t
  · intro x hx
    rcases List.mem_append.1 hx with hx | hx
    · exact inv.grp_mem x hx
    · rw [List.mem_singleton.1 hx]
      exact hgrp
  · intro x hx
    rcases List.mem_append.1 hx with hx | hx
    · exact inv.src x hx
    · rw [List.mem_singleton.1 hx]
      exact hsrc

/-- Within the capped probe set, a selected id determines its server; hence
a fresh failed candidate of an unprocessed group is never already selected. -/
theorem selInv_id_fresh {servers : List SpeedtestServer}
    {lat : SpeedtestServer → ℚ} {st : SelState} (inv : SelInv servers lat st)
    (hids : (servers.map (fun s => s.id)).Nodup) {s : SpeedtestServer}
    (hs : s ∈ serversToTest servers)
    (hgeo : ∀ e ∈ st.selected, geoOf e ≠ getRegionFromCountry s.country) :
    s.id ∉ st.ids := by
  intro hc
  rw [inv.ids_eq] at hc
  rcases List.mem_map.1 hc with ⟨e, he, hide⟩
  have : e.server = s :=
    serversToTest_id_inj hids (inv.mem_s2t e he) hs hide
  exact hgeo e he (by rw [geoOf, this])

/-! ### Behaviour of the coverage pass -/

theorem jsGe_one_false {cnt : List (String × Nat)} {g : String}
    (h : alookup cnt g = some 0) : jsGe cnt g 1 = false := by
  rw [jsGe, h]
  rfl

theorem push_counts_self {st : SelState} {g : String} {n : Nat}
    (e : LatencyEntry) (h : alookup st.counts g = some n) :
    alookup (push st e g).counts g = some (n + 1) := by
  show alookup (bump st.counts g) g = some (n + 1)
  rw [alookup_bump_self, h]
  rfl

theorem pass1Succ_stopped {g : String} {l : List LatencyEntry} {st : SelState}
    (h : jsGe st.counts g 1 = true) : pass1Succ g l st = st := by
  cases l with
  | nil => rfl
  | cons e rest =>
    rw [pass1Succ, if_pos h]

theorem pass1Succ_cons_zero {g : String} {e : LatencyEntry}
    {rest : List LatencyEntry} {st : SelState}
    (h0 : alookup st.counts g = some 0) :
    pass1Succ g (e :: rest) st = push st e g := by
  rw [pass1Succ, if_neg (by rw [jsGe_one_false h0]; exact Bool.noConfusion)]
  apply pass1Succ_stopped
  rw [jsGe, push_counts_self e h0]
  rfl

theorem pass1Failed_stopped {g : String} {l : List SpeedtestServer}
    {st : SelState} (h : jsGe st.counts g 1 = true) :
    pass1Failed g l st = st := by
  cases l with
  | nil => rfl
  | cons s rest =>
    rw [pass1Failed, if_pos h]

theorem pass1Failed_eq {g : String} {l : List SpeedtestServer} {st : SelState}
    (h0 : alookup st.counts g = some 0) :
    pass1Failed g l st =
      match l.find? (fun s => decide (getRegionFromCountry s.country = g) &&
          !(decide (s.id ∈ st.ids))) with
      | some s => push st ⟨s, 999⟩ g
      | none => st := by
  induction l with
  | nil => rfl
  | cons s rest ih =>
    rw [pass1Failed, if_neg (by rw [jsGe_one_false h0]; exact Bool.noConfusion)]
    by_cases hc : getRegionFromCountry s.country = g ∧ s.id ∉ st.ids
    · rw [if_pos hc]
      have hp : (decide (getRegionFromCountry s.country = g) &&
          !(decide (s.id ∈ st.ids))) = true := by
        simp [hc.1, hc.2]
      simp only [List.find?_cons, hp]
      apply pass1Failed_stopped
      rw [jsGe, push_counts_self _ h0]
      rfl
    · rw [if_neg hc]
      have hp : (decide (getRegionFromCountry s.country = g) &&
          !(decide (s.id ∈ st.ids))) = false := by
        rcases Decidable.not_and_iff_or_not.1 hc with h | h
        · simp [h]
        · simp at h
          simp [h]
      simp only [List.find?_cons, hp]
      exact ih

/-! ### Invariant of the coverage pass -/

/-- State invariant after the coverage pass has processed the region prefix
`done`: every selected entry belongs to a processed group, the selection
holds exactly one entry for every processed group with a discovered
candidate, and nothing else. -/
structure Pass1Inv (servers : List SpeedtestServer) (lat : SpeedtestServer → ℚ)
    (done : List String) (st : SelState) : Prop where
  base : SelInv servers lat st
  grp_done : ∀ e ∈ st.selected, geoOf e ∈ done
  len_eq : st.selected.length = ((done.filter (hasCandidate servers))).length
  cover : ∀ g ∈ done, hasCandidate servers g = true →
    countGroup g st.selected = 1

theorem pass1Inv_count_zero {servers : List SpeedtestServer}
    {lat : SpeedtestServer → ℚ} {done : List String} {st : SelState}
    (inv : Pass1Inv servers lat done st) {g : String} (hg : g ∉ done) :
    countGroup g st.selected = 0 :=
  countGroup_eq_zero (fun e he hge => hg (hge ▸ inv.grp_done e he))

theorem pass1Step_inv {servers : List SpeedtestServer}
    {lat : SpeedtestServer → ℚ} {done : List String} {st : SelState}
    {g : String} (hids : (servers.map (fun s => s.id)).Nodup)
    (hg : g ∈ regionOrder) (hgd : g ∉ done)
    (inv : Pass1Inv servers lat done st) :
    Pass1Inv servers lat (done ++ [g])
      (pass1Step (failedServers servers lat) (regionGroups servers lat) st g) := by
  have hcz : countGroup g st.selected = 0 := pass1Inv_count_zero inv hgd
  have h0 : alookup st.counts g = some 0 := by
    rw [inv.base.counts_eq g hg, hcz]
  simp only [pass1Step]
  cases hRG : regionGroups servers lat g with
  | nil =>
    rw [pass1Succ]
    rw [if_pos h0]
    rw [pass1Failed_eq h0]
    by_cases hcand : hasCandidate servers g = true
    · -- the group has a candidate but no successful probe: the fallback
      -- loop adds its first failed candidate
      rcases serversToTest_presence (hasCandidate_iff.1 hcand) with ⟨s0, hs0, hg0⟩
      have hs0f : s0 ∈ failedServers servers lat := by
        rw [failedServers_mem]
        refine ⟨hs0, ?_⟩
        intro hpos
        have : (⟨s0, lat s0⟩ : LatencyEntry) ∈ regionGroups servers lat g := by
          rw [regionGroups_mem]
          exact ⟨serverLatencies_mem.2 ⟨hs0, hpos, rfl⟩, hg0⟩
        rw [hRG] at this
        exact absurd this (List.not_mem_nil _)
      have hfresh : ∀ s ∈ failedServers servers lat,
          getRegionFromCountry s.country = g → s.id ∉ st.ids := by
        intro s hs hsg
        refine selInv_id_fresh inv.base hids (failedServers_mem.1 hs).1 ?_
        intro e he hge
        exact hgd (by rw [← hsg, ← hge]; exact inv.grp_done e he)
      cases hfind : (failedServers servers lat).find?
          (fun s => decide (getRegionFromCountry s.country = g) &&
            !(decide (s.id ∈ st.ids))) with
      | none =>
        exfalso
        have := List.find?_eq_none.1 hfind s0 hs0f
        simp [hg0, hfresh s0 hs0f hg0] at this
      | some sf =>
        have hsf_mem : sf ∈ failedServers servers lat :=
          List.mem_of_find?_eq_some hfind
        have hsf_pred := List.find?_some hfind
        simp only [Bool.and_eq_true, decide_eq_true_eq, Bool.not_eq_true',
          decide_eq_false_iff_not] at hsf_pred
        have hsf_geo : getRegionFromCountry sf.country = g := hsf_pred.1
        have hsf_id : sf.id ∉ st.ids := hsf_pred.2
        have hgeoE : geoOf (⟨sf, 999⟩ : LatencyEntry) = g := hsf_geo
        have hbase : SelInv servers lat (push st ⟨sf, 999⟩ g) := by
          rw [← hgeoE]
          exact selInv_push inv.base hsf_id (failedServers_mem.1 hsf_mem).1
            (by rw [hgeoE]; exact hg) (Or.inr (by rw [hgeoE]; exact hRG))
        refine ⟨hbase, ?_, ?_, ?_⟩
        · intro e he
          rcases List.mem_append.1 he with he | he
          · exact List.mem_append.2 (Or.inl (inv.grp_done e he))
          · rw [List.mem_singleton.1 he]
            exact List.mem_append.2 (Or.inr (by rw [hgeoE]; simp))
        · show (st.selected ++ [_]).length = _
          rw [List.length_append, List.filter_append, List.length_append,
            inv.len_eq]
          simp [hcand]
        · intro g2 hg2 hcand2
          rcases List.mem_append.1 hg2 with hg2 | hg2
          · show countGroup g2 (st.selected ++ [_]) = 1
            rw [countGroup_append, countGroup_singleton,
              if_neg (by rw [hgeoE]; exact fun he => hgd (he ▸ hg2))]
            rw [inv.cover g2 hg2 hcand2]
          · rw [List.mem_singleton.1 hg2]
            show countGroup g (st.selected ++ [_]) = 1
            rw [countGroup_append, countGroup_singleton, if_pos hgeoE, hcz]
    · -- no candidate in this group at all: nothing is added
      have hnone : (failedServers servers lat).find?
          (fun s => decide (getRegionFromCountry s.country = g) &&
            !(decide (s.id ∈ st.ids))) = none := by
        rw [List.find?_eq_none]
        intro s hs hp
        simp only [Bool.and_eq_true, decide_eq_true_eq] at hp
        have hsg : getRegionFromCountry s.country = g := hp.1
        exact hcand (hasCandidate_iff.2
          ⟨s, (serversToTest_sublist servers).mem (failedServers_mem.1 hs).1, hsg⟩)
      rw [hnone]
      refine ⟨inv.base, ?_, ?_, ?_⟩
      · intro e he
        exact List.mem_append.2 (Or.inl (inv.grp_done e he))
      · rw [List.filter_append, List.length_append, inv.len_eq]
        have : hasCandidate servers g = false := by
          cases h : hasCandidate servers g with
          | true => exact absurd h hcand
          | false => rfl
        simp [this]
      · intro g2 hg2 hcand2
        rcases List.mem_append.1 hg2 with hg2 | hg2
        · exact inv.cover g2 hg2 hcand2
        · rw [List.mem_singleton.1 hg2] at hcand2 ⊢
          exact absurd hcand2 hcand
  | cons e0 tl =>
    have he0RG : e0 ∈ regionGroups servers lat g := by
      rw [hRG]
      exact List.mem_cons_self _ _
    have he0SL : e0 ∈ serverLatencies servers lat :=
      (regionGroups_mem.1 he0RG).1
    have he0geo : geoOf e0 = g := (regionGroups_mem.1 he0RG).2
    have he0s2t : e0.server ∈ serversToTest servers :=
      (serverLatencies_mem.1 he0SL).1
    have hid : e0.server.id ∉ st.ids := by
      refine selInv_id_fresh inv.base hids he0s2t ?_
      intro e he hge
      exact hgd (by
        have : geoOf e0 = getRegionFromCountry e0.server.country := rfl
        rw [← he0geo, this, ← hge]
        exact inv.grp_done e he)
    rw [pass1Succ_cons_zero h0]
    rw [if_neg (by rw [push_counts_self e0 h0]; simp)]
    have hbase : SelInv servers lat (push st e0 g) := by
      rw [← he0geo]
      exact selInv_push inv.base hid he0s2t (by rw [he0geo]; exact hg)
        (Or.inl he0SL)
    have hcand : hasCandidate servers g = true :=
      hasCandidate_iff.2
        ⟨e0.server, (serversToTest_sublist servers).mem he0s2t, he0geo⟩
    refine ⟨hbase, ?_, ?_, ?_⟩
    · intro e he
      rcases List.mem_append.1 he with he | he
      · exact List.mem_append.2 (Or.inl (inv.grp_done e he))
      · rw [List.mem_singleton.1 he]
        exact List.mem_append.2 (Or.inr (by rw [he0geo]; simp))
    · show (st.selected ++ [e0]).length = _
      rw [List.length_append, List.filter_append, List.length_append,
        inv.len_eq]
      simp [hcand]
    · intro g2 hg2 hcand2
      rcases List.mem_append.1 hg2 with hg2 | hg2
      · show countGroup g2 (st.selected ++ [e0]) = 1
        rw [countGroup_append, countGroup_singleton,
          if_neg (by rw [he0geo]; exact fun he => hgd (he ▸ hg2))]
        rw [inv.cover g2 hg2 hcand2]
      · rw [List.mem_singleton.1 hg2]
        show countGroup g (st.selected ++ [e0]) = 1
        rw [countGroup_append, countGroup_singleton, if_pos he0geo, hcz]

theorem pass1_fold_inv {servers : List SpeedtestServer}
    {lat : SpeedtestServer → ℚ}
    (hids : (servers.map (fun s => s.id)).Nodup) :
    ∀ (rs done : List String) (st : SelState), done ++ rs = regionOrder →
      Pass1Inv servers lat done st →
      Pass1Inv servers lat regionOrder
        (rs.foldl (pass1Step (failedServers servers lat)
          (regionGroups servers lat)) st) := by
  intro rs
  induction rs with
  | nil =>
    intro done st h inv
    rw [List.foldl_nil]
    rw [List.append_nil] at h
    rw [← h]
    exact inv
  | cons g rest ih =>
    intro done st h inv
    have hg : g ∈ regionOrder := by
      rw [← h]
      exact List.mem_append.2 (Or.inr (List.mem_cons_self _ _))
    have hgd : g ∉ done := by
      intro hc
      have hnd : (done ++ g :: rest).Nodup := by
        rw [h]
        exact regionOrder_nodup
      have hdisj := (List.nodup_append.1 hnd).2.2
      exact hdisj hc (List.mem_cons_self _ _)
    rw [List.foldl_cons]
    apply ih (done ++ [g])
    · rw [List.append_assoc, List.singleton_append]
      exact h
    · exact pass1Step_inv hids hg hgd inv

theorem stage1_inv {servers : List SpeedtestServer}
    {lat : SpeedtestServer → ℚ}
    (hids : (servers.map (fun s => s.id)).Nodup) :
    Pass1Inv servers lat regionOrder (stage1 servers lat) := by
  have hb : Pass1Inv servers lat [] initState := by
    refine ⟨selInv_init servers lat, ?_, ?_, ?_⟩
    · intro e he
      exact absurd he (List.not_mem_nil e)
    · rfl
    · intro g hg
      exact absurd hg (List.not_mem_nil g)
  exact pass1_fold_inv hids regionOrder [] initState rfl hb

theorem stage1_length {servers : List SpeedtestServer}
    {lat : SpeedtestServer → ℚ}
    (hids : (servers.map (fun s => s.id)).Nodup) :
    (stage1 servers lat).selected.length = (coveredRegions servers).length :=
  (stage1_inv hids).len_eq

theorem stage1_countGroup_le_one {servers : List SpeedtestServer}
    {lat : SpeedtestServer → ℚ}
    (hids : (servers.map (fun s => s.id)).Nodup) (g : String) :
    countGroup g (stage1 servers lat).selected ≤ 1 := by
  by_cases hg : g ∈ regionOrder
  · by_cases hcand : hasCandidate servers g = true
    · rw [(stage1_inv hids).cover g hg hcand]
    · rcases Nat.eq_zero_or_pos (countGroup g (stage1 servers lat).selected)
        with h | h
      · omega
      · exfalso
        rcases exists_of_countGroup_pos h with ⟨e, he, hge⟩
        have hs2t := (stage1_inv hids).base.mem_s2t e he
        exact hcand (hasCandidate_iff.2
          ⟨e.server, (serversToTest_sublist servers).mem hs2t, hge⟩)
  · rw [pass1Inv_count_zero (stage1_inv hids) hg]
    omega

/-! ### The round-robin pass preserves the invariant -/

theorem sweep_inv {servers : List SpeedtestServer}
    {lat : SpeedtestServer → ℚ} {m maxPer : Nat} :
    ∀ (rs : List String) (st : SelState), (∀ g ∈ rs, g ∈ regionOrder) →
      SelInv servers lat st →
      SelInv servers lat
          (sweep (regionGroups servers lat) m maxPer rs st).1 ∧
        (∃ d : List LatencyEntry,
          (sweep (regionGroups servers lat) m maxPer rs st).1.selected =
            st.selected ++ d ∧
          ∀ e ∈ d, e ∈ serverLatencies servers lat) ∧
        (sweep (regionGroups servers lat) m maxPer rs st).1.selected.length ≤
          max st.selected.length m := by
  intro rs
  induction rs with
  | nil =>
    intro st _ inv
    refine ⟨inv, ⟨[], ?_, by simp⟩, le_max_left _ _⟩
    show st.selected = st.selected ++ []
    rw [List.append_nil]
  | cons g rest ih =>
    intro st hrs inv
    have hrest : ∀ g2 ∈ rest, g2 ∈ regionOrder :=
      fun g2 hg2 => hrs g2 (List.mem_cons_of_mem _ hg2)
    rw [sweep]
    by_cases h1 : m ≤ st.selected.length
    · rw [if_pos h1]
      refine ⟨inv, ⟨[], ?_, by simp⟩, le_max_left _ _⟩
      show st.selected = st.selected ++ []
      rw [List.append_nil]
    · rw [if_neg h1]
      cases h2 : jsGe st.counts g maxPer with
      | true =>
        rw [if_pos rfl]
        exact ih st hrest inv
      | false =>
        rw [if_neg (fun hc => Bool.noConfusion hc)]
        cases hf : (regionGroups servers lat g).find?
            (fun e => !(decide (e.server.id ∈ st.ids))) with
        | none =>
          exact ih st hrest inv
        | some e =>
          have he_mem : e ∈ regionGroups servers lat g :=
            List.mem_of_find?_eq_some hf
          have he_SL : e ∈ serverLatencies servers lat :=
            (regionGroups_mem.1 he_mem).1
          have he_geo : geoOf e = g := (regionGroups_mem.1 he_mem).2
          have hid : e.server.id ∉ st.ids := by
            have := List.find?_some hf
            simpa using this
          have hpush : SelInv servers lat (push st e g) := by
            rw [show push st e g = push st e (geoOf e) by rw [he_geo]]
            exact selInv_push inv hid (serverLatencies_mem.1 he_SL).1
              (by rw [he_geo]; exact hrs g (List.mem_cons_self _ _))
              (Or.inl he_SL)
          rcases ih (push st e g) hrest hpush with ⟨inv2, ⟨d, hd, hdSL⟩, hlen⟩
          refine ⟨inv2, ⟨e :: d, ?_, ?_⟩, ?_⟩
          · show _ = st.selected ++ (e :: d)
            rw [hd]
            show (st.selected ++ [e]) ++ d = _
            rw [List.append_assoc]
            rfl
          · intro x hx
            rcases List.mem_cons.1 hx with hx | hx
            · rw [hx]
              exact he_SL
            · exact hdSL x hx
          · have hlen2 : (push st e g).selected.length =
                st.selected.length + 1 := by
              show (st.selected ++ [e]).length = _
              rw [List.length_append]
              rfl
            rw [hlen2] at hlen
            have hle : st.selected.length + 1 ≤ m := by omega
            have hmx : max (st.selected.length + 1) m = m := by omega
            rw [hmx] at hlen
            exact le_trans hlen (le_max_right _ _)

theorem pass2_succ_eq (RG : String → List LatencyEntry) (m maxPer fuel : Nat)
    (st : SelState) :
    pass2 RG m maxPer (fuel + 1) st =
      if st.selected.length < m then
        (if (sweep RG m maxPer regionOrder st).2 then
          pass2 RG m maxPer fuel (sweep RG m maxPer regionOrder st).1
        else (sweep RG m maxPer regionOrder st).1)
      else st := rfl

theorem pass2_inv {servers : List SpeedtestServer}
    {lat : SpeedtestServer → ℚ} {m maxPer : Nat} :
    ∀ (fuel : Nat) (st : SelState), SelInv servers lat st →
      SelInv servers lat
          (pass2 (regionGroups servers lat) m maxPer fuel st) ∧
        (∃ d : List LatencyEntry,
          (pass2 (regionGroups servers lat) m maxPer fuel st).selected =
            st.selected ++ d ∧
          ∀ e ∈ d, e ∈ serverLatencies servers lat) ∧
        (pass2 (regionGroups servers lat) m maxPer fuel st).selected.length ≤
          max st.selected.length m := by
  intro fuel
  induction fuel with
  | zero =>
    intro st inv
    refine ⟨inv, ⟨[], ?_, by simp⟩, le_max_left _ _⟩
    show st.selected = st.selected ++ []
    rw [List.append_nil]
  | succ fuel ih =>
    intro st inv
    rw [pass2_succ_eq]
    by_cases h1 : st.selected.length < m
    · rw [if_pos h1]
      rcases sweep_inv regionOrder st (fun g hg => hg) inv with
        ⟨inv1, ⟨d1, hd1, hd1SL⟩, hlen1⟩
      cases hsw : (sweep (regionGroups servers lat) m maxPer regionOrder st).2 with
      | false =>
        rw [if_neg (fun hc => Bool.noConfusion hc)]
        exact ⟨inv1, ⟨d1, hd1, hd1SL⟩, hlen1⟩
      | true =>
        rw [if_pos rfl]
        rcases ih _ inv1 with ⟨inv2, ⟨d2, hd2, hd2SL⟩, hlen2⟩
        refine ⟨inv2, ⟨d1 ++ d2, ?_, ?_⟩, ?_⟩
        · rw [hd2, hd1, List.append_assoc]
        · intro x hx
          rcases List.mem_append.1 hx with hx | hx
          · exact hd1SL x hx
          · exact hd2SL x hx
        · have : max (sweep (regionGroups servers lat) m maxPer
              regionOrder st).1.selected.length m ≤
              max st.selected.length m := by
            have := le_max_right st.selected.length m
            omega
          omega
    · rw [if_neg h1]
      refine ⟨inv, ⟨[], ?_, by simp⟩, le_max_left _ _⟩
      show st.selected = st.selected ++ []
      rw [List.append_nil]

/-! ### The capped latency backfill preserves the invariant -/

theorem pass3_inv {servers : List SpeedtestServer}
    {lat : SpeedtestServer → ℚ} {m maxPer : Nat} :
    ∀ (l : List LatencyEntry) (st : SelState),
      (∀ e ∈ l, e ∈ serverLatencies servers lat) → SelInv servers lat st →
      SelInv servers lat (pass3 m maxPer l st) ∧
        (∃ d : List LatencyEntry,
          (pass3 m maxPer l st).selected = st.selected ++ d ∧
          ∀ e ∈ d, e ∈ serverLatencies servers lat) ∧
        (pass3 m maxPer l st).selected.length ≤ max st.selected.length m := by
  intro l
  induction l with
  | nil =>
    intro st _ inv
    refine ⟨inv, ⟨[], ?_, by simp⟩, le_max_left _ _⟩
    show st.selected = st.selected ++ []
    rw [List.append_nil]
  | cons e rest ih =>
    intro st hl inv
    have hrest : ∀ x ∈ rest, x ∈ serverLatencies servers lat :=
      fun x hx => hl x (List.mem_cons_of_mem _ hx)
    have heSL : e ∈ serverLatencies servers lat := hl e (List.mem_cons_self _ _)
    by_cases h1 : m ≤ st.selected.length
    · have hred : pass3 m maxPer (e :: rest) st = st := by
        rw [pass3, if_pos h1]
      rw [hred]
      refine ⟨inv, ⟨[], ?_, by simp⟩, le_max_left _ _⟩
      show st.selected = st.selected ++ []
      rw [List.append_nil]
    · by_cases h2 : e.server.id ∈ st.ids
      · have hred : pass3 m maxPer (e :: rest) st = pass3 m maxPer rest st := by
          rw [pass3, if_neg h1, if_pos (by simpa using h2)]
        rw [hred]
        exact ih st hrest inv
      · cases hal : alookup st.counts (geoOf e) with
        | none =>
          have hred : pass3 m maxPer (e :: rest) st =
              pass3 m maxPer rest st := by
            rw [pass3, if_neg h1, if_neg (by simpa using h2)]
            simp only [hal]
          rw [hred]
          exact ih st hrest inv
        | some n =>
          by_cases h3 : n < maxPer
          · have hred : pass3 m maxPer (e :: rest) st =
                pass3 m maxPer rest (push st e (geoOf e)) := by
              rw [pass3, if_neg h1, if_neg (by simpa using h2)]
              simp only [hal]
              rw [if_pos h3]
            rw [hred]
            have hgrp : geoOf e ∈ regionOrder := by
              rw [← inv.keys]
              exact alookup_isSome_mem hal
            have hpush : SelInv servers lat (push st e (geoOf e)) :=
              selInv_push inv h2 (serverLatencies_mem.1 heSL).1 hgrp
                (Or.inl heSL)
            rcases ih (push st e (geoOf e)) hrest hpush with
              ⟨inv2, ⟨d, hd, hdSL⟩, hlen⟩
            refine ⟨inv2, ⟨e :: d, ?_, ?_⟩, ?_⟩
            · rw [hd]
              show (st.selected ++ [e]) ++ d = _
              rw [List.append_assoc]
              rfl
            · intro x hx
              rcases List.mem_cons.1 hx with hx | hx
              · rw [hx]
                exact heSL
              · exact hdSL x hx
            · have hlen2 : (push st e (geoOf e)).selected.length =
                  st.selected.length + 1 := by
                show (st.selected ++ [e]).length = _
                rw [List.length_append]
                rfl
              rw [hlen2] at hlen
              have hmx : max (st.selected.length + 1) m = m := by omega
              rw [hmx] at hlen
              exact le_trans hlen (le_max_right _ _)
          · have hred : pass3 m maxPer (e :: rest) st =
                pass3 m maxPer rest st := by
              rw [pass3, if_neg h1, if_neg (by simpa using h2)]
              simp only [hal]
              rw [if_neg h3]
            rw [hred]
            exact ih st hrest inv

/-! ### The final unconstrained backfill -/

theorem pass4_props {m : Nat} :
    ∀ (l : List LatencyEntry) (st : SelState),
      st.ids = st.selected.map (fun e => e.server.id) → st.ids.Nodup →
      ((pass4 m l st).ids =
          (pass4 m l st).selected.map (fun e => e.server.id)) ∧
        (pass4 m l st).ids.Nodup ∧
        (∃ d : List LatencyEntry,
          (pass4 m l st).selected = st.selected ++ d) ∧
        (∀ i ∈ st.ids, i ∈ (pass4 m l st).ids) ∧
        (m ≤ (pass4 m l st).selected.length ∨
          ∀ e ∈ l, e.server.id ∈ (pass4 m l st).ids) := by
  intro l
  induction l with
  | nil =>
    intro st hids hnd
    refine ⟨hids, hnd, ⟨[], ?_⟩, fun i hi => hi, Or.inr (by simp)⟩
    show st.selected = st.selected ++ []
    rw [List.append_nil]
  | cons e rest ih =>
    intro st hids hnd
    rw [pass4]
    by_cases h1 : m ≤ st.selected.length
    · rw [if_pos h1]
      refine ⟨hids, hnd, ⟨[], ?_⟩, fun i hi => hi, Or.inl h1⟩
      show st.selected = st.selected ++ []
      rw [List.append_nil]
    · rw [if_neg h1]
      by_cases h2 : e.server.id ∈ st.ids
      · rw [if_pos (by simpa using h2)]
        rcases ih st hids hnd with ⟨a, b, c, dmono, disj⟩
        refine ⟨a, b, c, dmono, ?_⟩
        rcases disj with disj | disj
        · exact Or.inl disj
        · refine Or.inr ?_
          intro x hx
          rcases List.mem_cons.1 hx with hx | hx
          · rw [hx]
            exact dmono _ h2
          · exact disj x hx
      · rw [if_neg (by simpa using h2)]
        have hids2 : (pushNoCount st e).ids =
            (pushNoCount st e).selected.map (fun x => x.server.id) := by
          show st.ids ++ [e.server.id] =
            (st.selected ++ [e]).map (fun x => x.server.id)
          rw [List.map_append, hids]
          rfl
        have hnd2 : (pushNoCount st e).ids.Nodup := by
          show (st.ids ++ [e.server.id]).Nodup
          rw [List.nodup_append]
          exact ⟨hnd, List.nodup_singleton _, by simpa using h2⟩
        rcases ih (pushNoCount st e) hids2 hnd2 with ⟨a, b, ⟨d, hd⟩, dmono, disj⟩
        have hmono : ∀ i ∈ st.ids, i ∈ (pass4 m rest (pushNoCount st e)).ids := by
          intro i hi
          exact dmono i (List.mem_append.2 (Or.inl hi))
        refine ⟨a, b, ⟨e :: d, ?_⟩, hmono, ?_⟩
        · rw [hd]
          show (st.selected ++ [e]) ++ d = _
          rw [List.append_assoc]
          rfl
        · rcases disj with disj | disj
          · exact Or.inl disj
          · refine Or.inr ?_
            intro x hx
            rcases List.mem_cons.1 hx with hx | hx
            · rw [hx]
              exact dmono _ (List.mem_append.2 (Or.inr (by simp)))
            · exact disj x hx

/-! ### Stage composition -/

theorem stage2_inv {servers : List SpeedtestServer}
    {lat : SpeedtestServer → ℚ} {m : Nat}
    (hids : (servers.map (fun s => s.id)).Nodup) :
    SelInv servers lat (stage2 servers lat m) ∧
      (∃ d : List LatencyEntry,
        (stage2 servers lat m).selected = (stage1 servers lat).selected ++ d ∧
        ∀ e ∈ d, e ∈ serverLatencies servers lat) ∧
      (stage2 servers lat m).selected.length ≤
        max (stage1 servers lat).selected.length m :=
  pass2_inv (m + 1) (stage1 servers lat) (stage1_inv hids).base

theorem stage3_inv {servers : List SpeedtestServer}
    {lat : SpeedtestServer → ℚ} {m : Nat}
    (hids : (servers.map (fun s => s.id)).Nodup) :
    SelInv servers lat (stage3 servers lat m) ∧
      (∃ d : List LatencyEntry,
        (stage3 servers lat m).selected = (stage2 servers lat m).selected ++ d ∧
        ∀ e ∈ d, e ∈ serverLatencies servers lat) ∧
      (stage3 servers lat m).selected.length ≤
        max (stage2 servers lat m).selected.length m :=
  pass3_inv (serverLatencies servers lat) (stage2 servers lat m)
    (fun _ he => he) (stage2_inv hids).1

theorem stage3_append_stage1 {servers : List SpeedtestServer}
    {lat : SpeedtestServer → ℚ} {m : Nat}
    (hids : (servers.map (fun s => s.id)).Nodup) :
    ∃ d : List LatencyEntry,
      (stage3 servers lat m).selected = (stage1 servers lat).selected ++ d ∧
      ∀ e ∈ d, e ∈ serverLatencies servers lat := by
  rcases (@stage2_inv servers lat m hids).2.1 with ⟨d1, hd1, hd1SL⟩
  rcases (@stage3_inv servers lat m hids).2.1 with ⟨d2, hd2, hd2SL⟩
  refine ⟨d1 ++ d2, ?_, ?_⟩
  · rw [hd2, hd1, List.append_assoc]
  · intro x hx
    rcases List.mem_append.1 hx with hx | hx
    · exact hd1SL x hx
    · exact hd2SL x hx

theorem stage3_len_le {servers : List SpeedtestServer}
    {lat : SpeedtestServer → ℚ} {m : Nat}
    (hids : (servers.map (fun s => s.id)).Nodup) :
    (stage3 servers lat m).selected.length ≤
      max (stage1 servers lat).selected.length m := by
  have h2 := (@stage2_inv servers lat m hids).2.2
  have h3 := (@stage3_inv servers lat m hids).2.2
  omega

theorem stage4_append_stage3 {servers : List SpeedtestServer}
    {lat : SpeedtestServer → ℚ} {m : Nat}
    (hids : (servers.map (fun s => s.id)).Nodup) :
    (stage4 servers lat m).selected =
      (stage3 servers lat m).selected ++ pass4Additions servers lat m := by
  have inv3 := (@stage3_inv servers lat m hids).1
  rcases (pass4_props (m := m) (serverLatencies servers lat)
    (stage3 servers lat m) inv3.ids_eq inv3.nodup).2.2.1 with ⟨d, hd⟩
  have hd2 : (stage4 servers lat m).selected =
      (stage3 servers lat m).selected ++ d := hd
  show (stage4 servers lat m).selected = _ ++
    (stage4 servers lat m).selected.drop (stage3 servers lat m).selected.length
  rw [hd2, List.drop_left]

theorem stage4_append_stage1 {servers : List SpeedtestServer}
    {lat : SpeedtestServer → ℚ} {m : Nat}
    (hids : (servers.map (fun s => s.id)).Nodup) :
    ∃ d : List LatencyEntry,
      (stage4 servers lat m).selected = (stage1 servers lat).selected ++ d := by
  rcases @stage3_append_stage1 servers lat m hids with ⟨d1, hd1, _⟩
  refine ⟨d1 ++ pass4Additions servers lat m, ?_⟩
  rw [stage4_append_stage3 hids, hd1, List.append_assoc]

/-! ### Per-group bound after the capped passes -/

theorem countGroup_le_of_append {g : String} {l d : List LatencyEntry} :
    countGroup g (l ++ d) ≤ countGroup g l + d.length := by
  rw [countGroup_append]
  have := countGroup_le_length g d
  omega

theorem stage3_countGroup_RG_bound {servers : List SpeedtestServer}
    {lat : SpeedtestServer → ℚ} {m : Nat}
    (hids : (servers.map (fun s => s.id)).Nodup) (g : String) :
    countGroup g (stage3 servers lat m).selected ≤
      max 1 (regionGroups servers lat g).length := by
  have inv3 := (@stage3_inv servers lat m hids).1
  cases hRG : regionGroups servers lat g with
  | nil =>
    -- no successfully probed candidate in this group: only the coverage
    -- pass could have added one (failed) server for it
    rcases @stage3_append_stage1 servers lat m hids with ⟨d, hd, hdSL⟩
    rw [hd, countGroup_append]
    have hcd : countGroup g d = 0 := by
      apply countGroup_eq_zero
      intro e he hge
      have : e ∈ regionGroups servers lat g :=
        regionGroups_mem.2 ⟨hdSL e he, hge⟩
      rw [hRG] at this
      exact absurd this (List.not_mem_nil _)
    rw [hcd]
    have := @stage1_countGroup_le_one servers lat hids g
    omega
  | cons e0 tl =>
    -- all selected entries of this group are distinct members of the group
    have hsub : ((stage3 servers lat m).selected.filter
        (fun e => decide (geoOf e = g))).map (fun e => e.server.id) ⊆
        (regionGroups servers lat g).map (fun e => e.server.id) := by
      intro i hi
      rcases List.mem_map.1 hi with ⟨e, he, hie⟩
      have heg : geoOf e = g := by simpa using (List.mem_filter.1 he).2
      have heSL : e ∈ serverLatencies servers lat := by
        rcases inv3.src e (List.mem_filter.1 he).1 with h | h
        · exact h
        · rw [heg, hRG] at h
          exact absurd h (List.cons_ne_nil _ _)
      exact List.mem_map.2 ⟨e, regionGroups_mem.2 ⟨heSL, heg⟩, hie⟩
    have hnd : (((stage3 servers lat m).selected.filter
        (fun e => decide (geoOf e = g))).map (fun e => e.server.id)).Nodup := by
      have hfil : ((stage3 servers lat m).selected.filter
          (fun e => decide (geoOf e = g))).Sublist
          (stage3 servers lat m).selected := List.filter_sublist _
      have := (hfil.map (fun e => e.server.id)).nodup
        (by rw [← inv3.ids_eq]; exact inv3.nodup)
      exact this
    have hle := (hnd.subperm hsub).length_le
    rw [List.length_map, List.length_map] at hle
    have hcb : countGroup g (stage3 servers lat m).selected ≤
        (regionGroups servers lat g).length := hle
    rw [hRG] at hcb
    exact le_trans hcb (le_max_right _ _)

theorem pass3_stopped {m maxPer : Nat} {l : List LatencyEntry} {st : SelState}
    (h : m ≤ st.selected.length) : pass3 m maxPer l st = st := by
  cases l with
  | nil => rfl
  | cons e rest => rw [pass3, if_pos h]

theorem stage2_eq_stage1 {servers : List SpeedtestServer}
    {lat : SpeedtestServer → ℚ} {m : Nat}
    (h : m ≤ (stage1 servers lat).selected.length) :
    stage2 servers lat m = stage1 servers lat := by
  show pass2 _ m _ (m + 1) _ = _
  rw [pass2_succ_eq, if_neg (by omega)]

/-- The central cap computation: after the third pass no group holds more
than the spec's `min(4, ceil(maxServers/availableGroups)+1)` servers, with
`availableGroups` counting every geographic group (the priority groups and
`'Other'`) having at least one discovered candidate. -/
theorem stage3_cap {servers : List SpeedtestServer}
    {lat : SpeedtestServer → ℚ} {m : Nat}
    (hids : (servers.map (fun s => s.id)).Nodup) (hm : 1 ≤ m) (g : String) :
    countGroup g (stage3 servers lat m).selected ≤ capClaim servers m := by
  by_cases hAG0 : availableGroupsClaim servers = 0
  · -- no discovered candidate anywhere: nothing is ever selected
    have h0 : countGroup g (stage3 servers lat m).selected = 0 := by
      apply countGroup_eq_zero
      intro e he _
      exfalso
      have hs2t := (stage3_inv (m := m) hids).1.mem_s2t e he
      have hserv : e.server ∈ servers :=
        (serversToTest_sublist servers).mem hs2t
      have hcand : hasCandidate servers (geoOf e) = true :=
        hasCandidate_iff.2 ⟨e.server, hserv, rfl⟩
      have hmem : geoOf e ∈ regionOrder ++ ["Other"] := by
        rcases geo_mem_or_other e.server.country with h | h
        · exact List.mem_append.2 (Or.inl h)
        · refine List.mem_append.2 (Or.inr ?_)
          rw [show geoOf e = "Other" from h]
          exact List.mem_singleton.2 rfl
      have hfm : geoOf e ∈ (regionOrder ++ ["Other"]).filter
          (hasCandidate servers) := List.mem_filter.2 ⟨hmem, hcand⟩
      have : 0 < availableGroupsClaim servers :=
        List.length_pos.2 (List.ne_nil_of_mem hfm)
      omega
    rw [h0]
    exact Nat.zero_le _
  · have hAGpos : 0 < availableGroupsClaim servers :=
      Nat.pos_of_ne_zero hAG0
    have hcapeq : capClaim servers m = min 4
        ((m + availableGroupsClaim servers - 1) /
          availableGroupsClaim servers + 1) := rfl
    have hq1 : 1 ≤ (m + availableGroupsClaim servers - 1) /
        availableGroupsClaim servers := by
      rw [Nat.le_div_iff_mul_le hAGpos]
      omega
    by_cases hq2 : 2 ≤ (m + availableGroupsClaim servers - 1) /
        availableGroupsClaim servers
    · -- cap is at least 3 and no group ever exceeds 3 selected servers
      have hcap3 : 3 ≤ capClaim servers m := by
        rw [hcapeq]
        have h4 : (3 : Nat) ≤ 4 := by omega
        exact le_min h4 (by omega)
      have hb := @stage3_countGroup_RG_bound servers lat m hids g
      have h3 := regionGroups_length_le_three servers lat g
      have hmax : max 1 (regionGroups servers lat g).length ≤ 3 :=
        max_le (by omega) h3
      omega
    · -- cap is exactly 2 and capacity arithmetic bounds every group by 2
      have hmAG : m ≤ availableGroupsClaim servers := by
        have hlt : (m + availableGroupsClaim servers - 1) /
            availableGroupsClaim servers < 2 := by omega
        rw [Nat.div_lt_iff_lt_mul hAGpos] at hlt
        omega
      have hcap2 : capClaim servers m = 2 := by
        rw [hcapeq]
        have hqe : (m + availableGroupsClaim servers - 1) /
            availableGroupsClaim servers = 1 := by omega
        rw [hqe]
        rfl
      have hlen1 : (stage1 servers lat).selected.length =
          (coveredRegions servers).length := stage1_length hids
      have hGle := availableGroups_le_coveredRegions_succ servers
      have hc1 := @stage1_countGroup_le_one servers lat hids g
      by_cases hml : m ≤ (stage1 servers lat).selected.length
      · have h3 : stage3 servers lat m = stage1 servers lat := by
          show pass3 m _ _ (stage2 servers lat m) = _
          rw [stage2_eq_stage1 hml, pass3_stopped hml]
        rw [h3, hcap2]
        omega
      · rcases stage3_append_stage1 (m := m) hids with ⟨d, hd, _⟩
        have hlen3 := @stage3_len_le servers lat m hids
        have hlen3m : (stage3 servers lat m).selected.length ≤ m := by
          omega
        have hdlen : (stage3 servers lat m).selected.length =
            (stage1 servers lat).selected.length + d.length := by
          rw [hd, List.length_append]
        have hcnt : countGroup g (stage3 servers lat m).selected ≤
            countGroup g (stage1 servers lat).selected + d.length := by
          rw [hd]
          exact countGroup_le_of_append
        rw [hcap2]
        omega

/-! ### Size of the final selection -/

theorem stage4_len_ge {servers : List SpeedtestServer}
    {lat : SpeedtestServer → ℚ} {m : Nat}
    (hids : (servers.map (fun s => s.id)).Nodup)
    (hSL : m ≤ (serverLatencies servers lat).length) :
    m ≤ (stage4 servers lat m).selected.length := by
  have inv3 := (@stage3_inv servers lat m hids).1
  rcases pass4_props (m := m) (serverLatencies servers lat)
    (stage3 servers lat m) inv3.ids_eq inv3.nodup with
    ⟨hids4, _, _, _, hdisj⟩
  rcases hdisj with h | h
  · exact h
  · have hsub : (serverLatencies servers lat).map (fun e => e.server.id) ⊆
        (stage4 servers lat m).ids := by
      intro i hi
      rcases List.mem_map.1 hi with ⟨e, he, hie⟩
      rw [← hie]
      exact h e he
    have hnd := @serverLatencies_nodup_ids servers lat hids
    have hle := (hnd.subperm hsub).length_le
    rw [List.length_map] at hle
    have hlen4 : (stage4 servers lat m).ids.length =
        (stage4 servers lat m).selected.length := by
      have hids4s : (stage4 servers lat m).ids =
          (stage4 servers lat m).selected.map (fun e => e.server.id) := hids4
      rw [hids4s, List.length_map]
    omega

theorem finalServers_len_le (servers : List SpeedtestServer)
    (lat : SpeedtestServer → ℚ) (m : Nat) :
    (finalServers servers lat m).length ≤ m := by
  rw [finalServers, List.length_take]
  exact min_le_left _ _

theorem finalServers_len_eq {servers : List SpeedtestServer}
    {lat : SpeedtestServer → ℚ} {m : Nat}
    (hids : (servers.map (fun s => s.id)).Nodup)
    (hSL : m ≤ (serverLatencies servers lat).length) :
    (finalServers servers lat m).length = m := by
  rw [finalServers, List.length_take]
  have := stage4_len_ge hids hSL
  omega

/-! ### Coverage of the priority groups in the final selection -/

theorem finalServers_contains_stage1 {servers : List SpeedtestServer}
    {lat : SpeedtestServer → ℚ} {m : Nat}
    (hids : (servers.map (fun s => s.id)).Nodup)
    (hm : (stage1 servers lat).selected.length ≤ m) :
    ∀ e ∈ (stage1 servers lat).selected, e ∈ finalServers servers lat m := by
  rcases @stage4_append_stage1 servers lat m hids with ⟨d, hd⟩
  intro e he
  rw [finalServers, hd, List.take_append_eq_append_take,
    List.take_of_length_le hm]
  exact List.mem_append.2 (Or.inl he)

theorem coverage_mapped_groups {servers : List SpeedtestServer}
    {lat : SpeedtestServer → ℚ} {m : Nat} {g : String}
    (hids : (servers.map (fun s => s.id)).Nodup)
    (hmAG : availableGroupsClaim servers ≤ m) (hg : g ∈ regionOrder)
    (hcand : hasCandidate servers g = true) :
    ∃ e ∈ finalServers servers lat m, geoOf e = g := by
  have h1 : countGroup g (stage1 servers lat).selected = 1 :=
    (stage1_inv hids).cover g hg hcand
  rcases exists_of_countGroup_pos (g := g)
    (l := (stage1 servers lat).selected) (by omega) with ⟨e, he, hge⟩
  have hlen : (stage1 servers lat).selected.length ≤ m := by
    rw [stage1_length hids]
    have := coveredRegions_le_availableGroups servers
    omega
  exact ⟨e, finalServers_contains_stage1 hids hlen e he, hge⟩

/-! ### The `'Other'` group through the passes -/

theorem stage3_no_other {servers : List SpeedtestServer}
    {lat : SpeedtestServer → ℚ} {m : Nat}
    (hids : (servers.map (fun s => s.id)).Nodup) :
    ∀ e ∈ (stage3 servers lat m).selected, geoOf e ≠ "Other" := by
  intro e he hother
  have := (@stage3_inv servers lat m hids).1.grp_mem e he
  rw [hother] at this
  exact other_not_mem_regionOrder this

theorem final_other_from_pass4 {servers : List SpeedtestServer}
    {lat : SpeedtestServer → ℚ} {m : Nat}
    (hids : (servers.map (fun s => s.id)).Nodup) :
    ∀ e ∈ finalServers servers lat m, geoOf e = "Other" →
      e ∈ pass4Additions servers lat m := by
  intro e he hother
  have hsub : e ∈ (stage4 servers lat m).selected :=
    List.take_subset _ _ he
  rw [stage4_append_stage3 hids] at hsub
  rcases List.mem_append.1 hsub with h | h
  · exact absurd hother (stage3_no_other hids e h)
  · exact h

/-! ### The display comparator is a total preorder -/

instance : IsTotal LatencyEntry dispLE := by
  constructor
  intro a b
  unfold dispLE
  rcases lt_trichotomy (regIdx (geoOf a)) (regIdx (geoOf b)) with h | h | h
  · exact Or.inl (Or.inl h)
  · rcases lt_trichotomy a.server.country b.server.country with h2 | h2 | h2
    · exact Or.inl (Or.inr ⟨h, Or.inl h2⟩)
    · rcases le_total a.latency b.latency with h3 | h3
      · exact Or.inl (Or.inr ⟨h, Or.inr ⟨h2, h3⟩⟩)
      · exact Or.inr (Or.inr ⟨h.symm, Or.inr ⟨h2.symm, h3⟩⟩)
    · exact Or.inr (Or.inr ⟨h.symm, Or.inl h2⟩)
  · exact Or.inr (Or.inl h)

instance : IsTrans LatencyEntry dispLE := by
  constructor
  intro a b c hab hbc
  rcases hab with h1 | ⟨h1, h1c⟩
  · rcases hbc with h2 | ⟨h2, _⟩
    · exact Or.inl (lt_trans h1 h2)
    · exact Or.inl (h1.trans_eq h2)
  · rcases hbc with h2 | ⟨h2, h2c⟩
    · exact Or.inl (h1.trans_lt h2)
    · refine Or.inr ⟨h1.trans h2, ?_⟩
      rcases h1c with hc1 | ⟨hc1, hl1⟩
      · rcases h2c with hc2 | ⟨hc2, _⟩
        · exact Or.inl (lt_trans hc1 hc2)
        · exact Or.inl (hc1.trans_eq hc2)
      · rcases h2c with hc2 | ⟨hc2, hl2⟩
        · exact Or.inl (hc1.trans_lt hc2)
        · exact Or.inr ⟨hc1.trans hc2, le_trans hl1 hl2⟩

/-! ### The bandwidth loop as a filter-map -/

theorem buildTests_eq (dl ul : SpeedtestServer → Option ℚ)
    (l : List LatencyEntry) :
    buildTests dl ul l =
      (l.filter (fun e => !(decide ((testDownload (dl e.server)).speed = 0)))).map
        (fun e => mkSpeedTestResult e (testDownload (dl e.server))
          (testUpload (ul e.server))) := by
  induction l with
  | nil => rfl
  | cons e rest ih =>
    show (if (testDownload (dl e.server)).speed = 0 then buildTests dl ul rest
      else mkSpeedTestResult e (testDownload (dl e.server))
        (testUpload (ul e.server)) :: buildTests dl ul rest) = _
    by_cases h : (testDownload (dl e.server)).speed = 0
    · rw [if_pos h]
      simp [List.filter_cons, h, ih]
    · rw [if_neg h]
      simp [List.filter_cons, h, ih]

theorem countGroup_sublist_le {g : String} {l1 l2 : List LatencyEntry}
    (h : l1.Sublist l2) : countGroup g l1 ≤ countGroup g l2 :=
  (h.filter _).length_le

/-! ### Concrete run data used by witnesses and the counterexample -/

def c1srvA : SpeedtestServer := ⟨"v1", "h1", "HN", "Vietnam", "SpA", "u1", ""⟩

def c1srvB : SpeedtestServer := ⟨"v2", "h2", "HC", "Vietnam", "SpB", "u2", ""⟩

def c1srvC : SpeedtestServer := ⟨"o1", "h3", "AT", "Atlantis", "SpC", "u3", ""⟩

/-- A run whose discovery yields two Vietnam candidates and one candidate of
an unmapped country (group `'Other'`). -/
def c1responses : List (String × List SpeedtestServer) :=
  [("Hanoi", [c1srvA, c1srvB]), ("Atlantis City", [c1srvC])]

def c1lat (s : SpeedtestServer) : ℚ :=
  if s.id = "v1" then 10 else if s.id = "v2" then 20 else 30

/-! ## C1 -/

/-- C1, counterexample: in the run `c1responses` with `maxServers = 2`, the
number of geographic groups holding a discovered candidate is 2 (Vietnam and
'Other') and the 'Other' group has a candidate, yet the final selected list
contains no server of group 'Other' — the claimed coverage guarantee fails
for the 'Other' group. -/
theorem c1_counterexample :
    availableGroupsClaim (fetchSpeedtestServers c1responses) ≤ 2 ∧
    hasCandidate (fetchSpeedtestServers c1responses) ("Other") = true ∧
    countGroup ("Other")
      (finalServers (fetchSpeedtestServers c1responses) c1lat 2) = 0 := by
  decide

/-- C1, amended: for every run of the benchmark on discovered servers, every
group OF THE PRIORITY ORDER with at least one discovered candidate
contributes at least one server to the final selection, provided
`maxServers` is at least the number of groups (priority groups and 'Other')
with a candidate; the unmapped group 'Other' is excluded from the
guarantee. -/
theorem c1_coverage_amended (responses : List (String × List SpeedtestServer))
    (lat : SpeedtestServer → ℚ) (m : Nat) (g : String)
    (hmAG : availableGroupsClaim (fetchSpeedtestServers responses) ≤ m)
    (hg : g ∈ regionOrder)
    (hcand : hasCandidate (fetchSpeedtestServers responses) g = true) :
    ∃ e ∈ finalServers (fetchSpeedtestServers responses) lat m,
      geoOf e = g :=
  coverage_mapped_groups (dedupById_nodup _ _) hmAG hg hcand

/-- C1, witness for the amended coverage theorem on a concrete run. -/
theorem c1_coverage_amended_witness :
    availableGroupsClaim (fetchSpeedtestServers c1responses) ≤ 2 ∧
    ("Vietnam") ∈ regionOrder ∧
    (∃ e ∈ finalServers (fetchSpeedtestServers c1responses) c1lat 2,
      geoOf e = "Vietnam") :=
  ⟨by decide, by decide,
   c1_coverage_amended c1responses c1lat 2 ("Vietnam") (by decide) (by decide)
     (by decide)⟩

/-! ## C2 -/

/-- C2: for every run of the benchmark, the final selected list never
exceeds `maxServers`; and whenever at least `maxServers` discovered
candidates passed the latency probe, the final selected list has exactly
`maxServers` entries. -/
theorem c2_size_invariant (responses : List (String × List SpeedtestServer))
    (lat : SpeedtestServer → ℚ) (m : Nat) :
    (finalServers (fetchSpeedtestServers responses) lat m).length ≤ m ∧
    (m ≤ (serverLatencies (fetchSpeedtestServers responses) lat).length →
      (finalServers (fetchSpeedtestServers responses) lat m).length = m) :=
  ⟨finalServers_len_le _ _ _,
   fun hSL => finalServers_len_eq (dedupById_nodup _ _) hSL⟩

/-- C2, witness: the size invariant evaluated on a concrete run with two
probeable candidates and `maxServers = 2`. -/
theorem c2_size_invariant_witness :
    2 ≤ (serverLatencies (fetchSpeedtestServers c1responses) c1lat).length ∧
    (finalServers (fetchSpeedtestServers c1responses) c1lat 2).length = 2 :=
  ⟨by decide, (c2_size_invariant c1responses c1lat 2).2 (by decide)⟩

/-! ## C3 -/

/-- C3: in every run with `maxServers ≥ 1`, after the three capped passes no
geographic group holds more than `min(4, ceil(maxServers/availableGroups)+1)`
selected servers, where `availableGroups` counts the groups with at least
one discovered candidate; the final selection is exactly the capped
selection followed by the final-pass additions truncated to `maxServers`,
so a group exceeds the cap in the final output by at most its final-pass
additions. -/
theorem c3_cap_invariant (responses : List (String × List SpeedtestServer))
    (lat : SpeedtestServer → ℚ) (m : Nat) (hm : 1 ≤ m) :
    (∀ g, countGroup g
        (stage3 (fetchSpeedtestServers responses) lat m).selected ≤
      capClaim (fetchSpeedtestServers responses) m) ∧
    (stage4 (fetchSpeedtestServers responses) lat m).selected =
      (stage3 (fetchSpeedtestServers responses) lat m).selected ++
        pass4Additions (fetchSpeedtestServers responses) lat m ∧
    finalServers (fetchSpeedtestServers responses) lat m =
      ((stage3 (fetchSpeedtestServers responses) lat m).selected ++
        pass4Additions (fetchSpeedtestServers responses) lat m).take m ∧
    (∀ g, countGroup g (finalServers (fetchSpeedtestServers responses) lat m) ≤
      capClaim (fetchSpeedtestServers responses) m +
        countGroup g (pass4Additions (fetchSpeedtestServers responses) lat m)) := by
  have hids := dedupById_nodup
    ((c1responses.map (fun p => p.2.map (fun s => { s with region := p.1 }))).flatten) []
  have hids2 : ((fetchSpeedtestServers responses).map (fun s => s.id)).Nodup :=
    dedupById_nodup _ _
  have happ := @stage4_append_stage3 (fetchSpeedtestServers responses) lat m hids2
  refine ⟨fun g => stage3_cap hids2 hm g, happ, ?_, ?_⟩
  · rw [finalServers, happ]
  · intro g
    have hsub : (finalServers (fetchSpeedtestServers responses) lat m).Sublist
        ((stage3 (fetchSpeedtestServers responses) lat m).selected ++
          pass4Additions (fetchSpeedtestServers responses) lat m) := by
      rw [finalServers, happ]
      exact List.take_sublist _ _
    have h1 := countGroup_sublist_le (g := g) hsub
    rw [countGroup_append] at h1
    have h2 := @stage3_cap (fetchSpeedtestServers responses) lat m hids2 hm g
    omega

/-- C3, witness: the cap invariant evaluated on a concrete run. -/
theorem c3_cap_invariant_witness :
    (1 : Nat) ≤ 2 ∧
    countGroup ("Vietnam")
        (stage3 (fetchSpeedtestServers c1responses) c1lat 2).selected ≤
      capClaim (fetchSpeedtestServers c1responses) 2 :=
  ⟨by decide, (c3_cap_invariant c1responses c1lat 2 (by decide)).1 ("Vietnam")⟩

/-! ## C4 -/

/-- C4: for identical candidate and latency data the emission order of the
selected servers is the fixed deterministic one: a permutation of the final
selection that is sorted by the display comparator — group priority index
first (`-1` for the unmapped group), then country name, then latency
ascending. -/
theorem c4_presentation_order (servers : List SpeedtestServer)
    (lat : SpeedtestServer → ℚ) (m : Nat) :
    (sortedServers servers lat m).Perm (finalServers servers lat m) ∧
    List.Sorted dispLE (sortedServers servers lat m) :=
  ⟨List.perm_insertionSort _ _, List.sorted_insertionSort _ _⟩

/-! ## C5 -/

/-- C5: the bandwidth loop appends exactly one `SpeedTestResult` for every
sorted server whose download outcome is nonzero, in order — a server whose
download measurement yields 0 is dropped entirely — and an unmeasurable
upload (unparseable or nonpositive) is recorded as the string 'N/A' while
the entry is still appended. -/
theorem c5_download_exclusion (dl ul : SpeedtestServer → Option ℚ)
    (l : List LatencyEntry) :
    buildTests dl ul l =
      (l.filter (fun e =>
        !(decide ((testDownload (dl e.server)).speed = 0)))).map
        (fun e => mkSpeedTestResult e (testDownload (dl e.server))
          (testUpload (ul e.server))) ∧
    testUpload none = "N/A" ∧
    (∀ q : ℚ, q ≤ 0 → testUpload (some q) = "N/A") :=
  ⟨buildTests_eq dl ul l, rfl,
   fun q hq => by
    show (if 0 < q then mbpsFormat q else ("N/A")) = "N/A"
    rw [if_neg (fun hc => absurd hq (not_le.2 hc))]⟩

/-- C5, witness: an unmeasurable upload value is rendered as 'N/A'. -/
theorem c5_download_exclusion_witness :
    ((-1 : ℚ) ≤ 0) ∧ testUpload (some (-1)) = "N/A" :=
  ⟨by decide,
   (c5_download_exclusion (fun _ => none) (fun _ => none) []).2.2 (-1)
     (by decide)⟩

/-! ## C6 -/

/-- C6: for any set of region directory responses, the merged candidate
list contains each id exactly once; each survivor is the first occurrence
of its id in the merged response stream (so its country and name fields are
those of that first occurrence, whichever region surfaced it). -/
theorem c6_dedup_invariant (responses : List (String × List SpeedtestServer)) :
    ((fetchSpeedtestServers responses).map (fun s => s.id)).Nodup ∧
    (∀ s ∈ fetchSpeedtestServers responses,
      ((responses.map (fun p => p.2.map
        (fun t => { t with region := p.1 }))).flatten).find?
        (fun t => t.id = s.id) = some s) ∧
    (∀ i ∈ ((responses.map (fun p => p.2.map
        (fun t => { t with region := p.1 }))).flatten).map (fun s => s.id),
      ((fetchSpeedtestServers responses).map (fun s => s.id)).count i = 1) := by
  refine ⟨dedupById_nodup _ _, ?_, ?_⟩
  · intro s hs
    exact dedupById_first_wins hs
  · intro i hi
    rcases List.mem_map.1 hi with ⟨s, hs, hie⟩
    have hmem : i ∈ (fetchSpeedtestServers responses).map (fun s => s.id) := by
      rw [← hie]
      exact dedupById_covers hs (List.not_mem_nil _)
    exact List.count_eq_one_of_mem (dedupById_nodup _ _) hmem

/-- Two regions whose responses share the server id `v1`. -/
def c6responses : List (String × List SpeedtestServer) :=
  [("Hanoi", [⟨"v1", "h1", "HN", "Vietnam", "SpA", "u1", ""⟩]),
   ("Ho Chi Minh", [⟨"v1", "hx", "XX", "France", "SpX", "ux", ""⟩])]

/-- The deduplicated survivor: the first occurrence, with its own country
and name, carrying the region that first surfaced it. -/
def c6survivor : SpeedtestServer :=
  ⟨"v1", "h1", "HN", "Vietnam", "SpA", "u1", "Hanoi"⟩

/-- C6, witness: on the overlapping responses the survivor is the first
occurrence of its id and the id is counted exactly once. -/
theorem c6_dedup_invariant_witness :
    (((c6responses.map (fun p => p.2.map
        (fun t => { t with region := p.1 }))).flatten).find?
      (fun t => t.id = c6survivor.id) = some c6survivor) ∧
    ((fetchSpeedtestServers c6responses).map (fun s => s.id)).count ("v1") = 1 :=
  ⟨(c6_dedup_invariant c6responses).2.1 c6survivor (by decide),
   (c6_dedup_invariant c6responses).2.2 ("v1") (by decide)⟩

/-! ## C7 -/

/-- C7: when the ICMP probe fails (no parseable ping output, or a
nonpositive value) but the HTTP connect-time probe returns a positive time,
`testLatency` returns that connect time converted to milliseconds — a
positive latency — so a capped candidate measured this way is recorded among
the successful-latency servers and appears in its group's `regionGroups`
bucket, the input of the coverage pass. -/
theorem c7_latency_fallback (hostname : String) (pingMs : Option ℚ) (t : ℚ)
    (servers : List SpeedtestServer) (lat : SpeedtestServer → ℚ)
    (s : SpeedtestServer) (hh : hostname ≠ "")
    (hp : pingMs = none ∨ ∃ l, pingMs = some l ∧ l ≤ 0) (ht : 0 < t)
    (hs : s ∈ serversToTest servers) (hlat : lat s = t * 1000) :
    testLatency hostname pingMs (some t) = t * 1000 ∧ 0 < lat s ∧
    (⟨s, lat s⟩ : LatencyEntry) ∈ regionGroups servers lat
      (getRegionFromCountry s.country) := by
  have hpos : 0 < t * 1000 := mul_pos ht (by norm_num)
  have hfb : httpFallbackLatency (some t) = t * 1000 := by
    show (if 0 < t then t * 1000 else -1) = t * 1000
    rw [if_pos ht]
  refine ⟨?_, ?_, ?_⟩
  · unfold testLatency
    rw [if_neg hh]
    rcases hp with hp | ⟨l, hp, hl⟩
    · rw [hp]
      exact hfb
    · rw [hp]
      show (if 0 < l then l else httpFallbackLatency (some t)) = t * 1000
      rw [if_neg (not_lt.2 hl)]
      exact hfb
  · rw [hlat]
    exact hpos
  · apply regionGroups_mem.2
    refine ⟨serverLatencies_mem.2 ⟨hs, ?_, rfl⟩, rfl⟩
    rw [hlat]
    exact hpos

/-- Candidate and oracle for the C7 witness. -/
def c7srv : SpeedtestServer := ⟨"s1", "h", "HN", "Vietnam", "Sp", "u", ""⟩

def c7lat (_ : SpeedtestServer) : ℚ := 1 * 1000

/-- C7, witness: a concrete candidate with ICMP unavailable and a 1-second
HTTP connect time receives latency 1000 ms and sits in its region group. -/
theorem c7_latency_fallback_witness :
    testLatency ("example.com") none (some 1) = 1 * 1000 ∧
    0 < c7lat c7srv ∧
    (⟨c7srv, c7lat c7srv⟩ : LatencyEntry) ∈ regionGroups [c7srv] c7lat
      (getRegionFromCountry c7srv.country) :=
  c7_latency_fallback ("example.com") none 1 [c7srv] c7lat c7srv (by decide)
    (Or.inl rfl) (by decide) (by decide) rfl

/-! ## C8 -/

/-- C8: if discovery yields zero servers for every region, the benchmark
does not fail: it emits exactly one warning and returns a `NetworkResult`
with an empty tests list whose ip, provider and location fields come from
the independent public-IP lookup. -/
theorem c8_total_discovery_failure (ipInfo : PublicIpInfo)
    (responses : List (String × List SpeedtestServer))
    (lat : SpeedtestServer → ℚ) (dl ul : SpeedtestServer → Option ℚ)
    (m : Nat) (hz : ∀ p ∈ responses, p.2 = []) :
    runNetworkBenchmark ipInfo responses lat dl ul m =
      (⟨ipInfo.ip, ipInfo.provider, ipInfo.location, []⟩,
       ["Could not fetch servers from Speedtest.net API"]) := by
  have hflat : (responses.map (fun p => p.2.map
      (fun s => { s with region := p.1 }))).flatten = [] := by
    rw [List.flatten_eq_nil_iff]
    intro l hl
    rcases List.mem_map.1 hl with ⟨p, hp, hpe⟩
    rw [← hpe, hz p hp]
    rfl
  have hf : fetchSpeedtestServers responses = [] := by
    unfold fetchSpeedtestServers
    rw [hflat]
    rfl
  show (if (fetchSpeedtestServers responses).isEmpty then _ else _) = _
  rw [hf]
  rfl

/-- C8, witness: a simulated total outage (one region, empty response). -/
theorem c8_total_discovery_failure_witness :
    runNetworkBenchmark ⟨"1.2.3.4", "ProviderX", "CityY"⟩ [("Hanoi", [])]
        (fun _ => 0) (fun _ => none) (fun _ => none) 20 =
      (⟨"1.2.3.4", "ProviderX", "CityY", []⟩,
       ["Could not fetch servers from Speedtest.net API"]) :=
  c8_total_discovery_failure ⟨"1.2.3.4", "ProviderX", "CityY"⟩ [("Hanoi", [])]
    (fun _ => 0) (fun _ => none) (fun _ => none) 20 (by decide)

/-! ## C9 -/

/-- C9: a discovered candidate whose country is missing from the lookup
table is assigned group 'Other'; no entry of group 'Other' is ever present
after the coverage, round-robin and capped-backfill passes (the counter
lookup for 'Other' fails, so the capped passes skip it), and any 'Other'
server in the final selection entered through the final unconstrained
backfill pass. -/
theorem c9_other_group_final_backfill
    (responses : List (String × List SpeedtestServer))
    (lat : SpeedtestServer → ℚ) (m : Nat) :
    (∀ c, alookup COUNTRY_TO_REGION c = none →
      getRegionFromCountry c = "Other") ∧
    (∀ e ∈ (stage3 (fetchSpeedtestServers responses) lat m).selected,
      geoOf e ≠ "Other") ∧
    (∀ e ∈ finalServers (fetchSpeedtestServers responses) lat m,
      geoOf e = "Other" →
        e ∈ pass4Additions (fetchSpeedtestServers responses) lat m) := by
  refine ⟨?_, ?_, ?_⟩
  · intro c h
    unfold getRegionFromCountry
    rw [h]
    rfl
  · exact stage3_no_other (dedupById_nodup _ _)
  · exact final_other_from_pass4 (dedupById_nodup _ _)

/-- A run in which an 'Other' candidate reaches the final selection. -/
def c9responses : List (String × List SpeedtestServer) :=
  [("Hanoi", [c1srvA]), ("Atlantis City", [c1srvC])]

/-- The 'Other'-group entry as the final pass selects it. -/
def c9entry : LatencyEntry :=
  ⟨⟨"o1", "h3", "AT", "Atlantis", "SpC", "u3", "Atlantis City"⟩, 30⟩

/-- C9, witness: 'Atlantis' maps to 'Other', and the 'Other' entry found in
the final selection of the concrete run was added by the final pass. -/
theorem c9_other_group_final_backfill_witness :
    getRegionFromCountry ("Atlantis") = "Other" ∧
    c9entry ∈ pass4Additions (fetchSpeedtestServers c9responses) c1lat 2 :=
  ⟨(c9_other_group_final_backfill c9responses c1lat 2).1 ("Atlantis")
     (by decide),
   (c9_other_group_final_backfill c9responses c1lat 2).2.2 c9entry (by decide)
     (by decide)⟩

/-! ## C10 -/

/-- C10: whenever the public-IP lookup does not produce a well-formed
dotted-quad IPv4 address, the returned record has ip 'Unknown' and — the
geolocation lookups being skipped entirely — provider and location are also
both 'Unknown'. -/
theorem c10_unknown_ip (echoRaw : String) (api1 : Option IpApiJson)
    (api2 : Option IpInfoJson)
    (h : (getPublicIp echoRaw api1 api2).ip = "Unknown") :
    (getPublicIp echoRaw api1 api2).provider = "Unknown" ∧
    (getPublicIp echoRaw api1 api2).location = "Unknown" := by
  unfold getPublicIp at h ⊢
  by_cases hc : (if isDottedQuad (jsTrim echoRaw) then jsTrim echoRaw
      else ("Unknown")) = "Unknown"
  · rw [if_pos hc] at h ⊢
    exact ⟨rfl, rfl⟩
  · rw [if_neg hc] at h ⊢
    cases api1 with
    | some j => exact absurd h hc
    | none =>
      cases api2 with
      | some j => exact absurd h hc
      | none => exact absurd h hc

/-- C10, witness: a lookup that echoes something other than an IPv4 address
yields the all-'Unknown' record. -/
theorem c10_unknown_ip_witness :
    (getPublicIp ("no address here") none none).provider = "Unknown" ∧
    (getPublicIp ("no address here") none none).location = "Unknown" :=
  c10_unknown_ip ("no address here") none none (by decide)
